import Mathlib

/-!
# Verification of the Klondike solitaire solver

Shallow embedding of the solitaire game model and solver of the
`solitaire-cpp` repository, together with proofs about the claims of its
specification.

The repository contains two generations of the implementation:

* an array-based game model and solver (`Solitaire.h` with
  `std::array` members, `Solitaire.cpp`, `Solver.h`, `Solver.cpp` using
  fixed-capacity arrays and 64-bit FNV hashes for cache keys), and
* an older vector-based game model and solver (`Solitaire.h` with
  `std::vector` members, the matching `Solitaire.cpp`, and the
  `Solver.cpp` that keys its caches by strings).

We embed both.  Machine integers (`int8_t` suits, ranks and move extras)
become `Int`; `size_t` counters become `Nat`; the fixed-capacity
array-plus-size pairs of the array model become the lists of their live
prefixes.  Out-of-bounds reads (undefined behaviour in C++) are modelled
by `List.getD` with a default card.
-/

namespace Solitaire

/-- `typedef int8_t Suit` -/
abbrev Suit := Int
/-- `typedef int8_t Rank` -/
abbrev Rank := Int

def SPADES : Int := 0
def HEARTS : Int := 1
def DIAMONDS : Int := 2
def CLUBS : Int := 3
def NUM_SUITS : Nat := 4
def NUM_RANKS : Nat := 13
def NUM_CARDS : Nat := NUM_RANKS * NUM_SUITS

/-- `class Card { Suit suit; Rank rank; }` (array model; the vector model's
`Card` has the same two fields behind accessors). -/
structure Card where
  suit : Int
  rank : Int
deriving DecidableEq, Repr, Inhabited

/-- `Card::operator<`: suit-major, then rank ascending. -/
def Card.lt (c other : Card) : Prop :=
  if c.suit = other.suit then c.rank < other.rank else c.suit < other.suit

instance : DecidableRel Card.lt := by
  intro c d; unfold Card.lt; infer_instance

/-- `bool isBlack(const Card c)` -/
def isBlack (c : Card) : Bool :=
  c.suit == SPADES || c.suit == CLUBS

/-- `bool areDifferentColors(const Card c1, const Card c2)` -/
def areDifferentColors (c1 c2 : Card) : Bool :=
  isBlack c1 != isBlack c2

inductive MoveType
  | DRAW
  | WASTE_TO_FOUNDATION
  | WASTE_TO_TABLEAU
  | TABLEAU_TO_FOUNDATION
  | TABLEAU_TO_TABLEAU
deriving DecidableEq, Repr, Inhabited

def NUM_MOVE_EXTRAS : Nat := 3

/-- `class Move` of the array model: a type tag plus
`std::array<int8_t, 3>` extras. -/
structure Move where
  type : MoveType
  e0 : Int
  e1 : Int
  e2 : Int
deriving DecidableEq, Repr, Inhabited

def TABLEAU_SIZE : Nat := 7
def MAX_HAND_SIZE : Nat := 24

/-- `struct TableauColumn` of the array model: the live prefixes of the
`faceDown`/`faceUp` arrays (of lengths `faceDownSize`/`faceUpSize`). -/
structure TableauColumn where
  faceDown : List Card
  faceUp : List Card
deriving DecidableEq, Repr, Inhabited

/-- `class Solitaire` of the array model.  `hand` is the live prefix
`_hand[0 .. _handSize)`; the last `wasteSize` of its cards form the waste,
whose top is `hand[handSize - wasteSize]`. -/
structure Game where
  drawSize : Nat
  foundation : List Int
  hand : List Card
  wasteSize : Nat
  tableau : List TableauColumn
deriving DecidableEq, Repr, Inhabited

namespace Game

def handSize (g : Game) : Nat := g.hand.length

/-- `game.hand()[game.handSize() - game.wasteSize()]`, the top of waste. -/
def wasteTop (g : Game) : Card := g.hand.getD (g.handSize - g.wasteSize) default

def col (g : Game) (i : Nat) : TableauColumn := g.tableau.getD i default

/-- `_foundation[s]` for a suit `s` (entries are `-1` when empty). -/
def found (g : Game) (s : Int) : Int := g.foundation.getD s.toNat (-1)

end Game

/-- One dealing step of the constructor's nested loop body: take
`deck[cardsInDeck - 1]`, decrement `cardsInDeck` and place the card
face-up (when `row == column`) or face-down on `tableau[column]`. -/
def dealStep (deck : List Card) (st : Nat × List TableauColumn) (rc : Nat × Nat) :
    Nat × List TableauColumn :=
  let cardsInDeck := st.1
  let tab := st.2
  let card := deck.getD (cardsInDeck - 1) default
  let column := tab.getD rc.2 default
  let column' :=
    if rc.1 = rc.2 then { column with faceUp := column.faceUp ++ [card] }
    else { column with faceDown := column.faceDown ++ [card] }
  (cardsInDeck - 1, tab.set rc.2 column')

/-- The `(row, column)` pairs visited by the constructor's nested loop:
for each `row` in `0..6`, the columns `row..6`. -/
def dealPairs : List (Nat × Nat) :=
  (List.range TABLEAU_SIZE).flatMap fun row =>
    (List.range' row (TABLEAU_SIZE - row)).map fun column => (row, column)

/-- `Solitaire::Solitaire(const std::array<Card, NUM_CARDS>& deck, size_t drawSize)`
(array model): foundation all `-1`, hand = first 24 cards of the deck,
then the tableau deal taking cards from the back of the deck row by row. -/
def mkGame (deck : List Card) (drawSize : Nat) : Game :=
  let foundation := List.replicate NUM_SUITS (-1 : Int)
  let hand := deck.take MAX_HAND_SIZE
  let tab0 := List.replicate TABLEAU_SIZE ({ faceDown := [], faceUp := [] } : TableauColumn)
  let res := dealPairs.foldl (dealStep deck) (deck.length, tab0)
  { drawSize := drawSize, foundation := foundation, hand := hand,
    wasteSize := 0, tableau := res.2 }

/-- `bool Solitaire::isValid(const Move& move) const` (array model). -/
def Game.isValid (g : Game) (move : Move) : Bool :=
  match move.type with
  | .DRAW =>
    -- if both hand and waste are empty this fails
    !(g.handSize == 0)
  | .WASTE_TO_FOUNDATION =>
    if g.wasteSize == 0 then false
    else
      let card := g.wasteTop
      !(card.rank != g.found card.suit + 1)
  | .WASTE_TO_TABLEAU =>
    let dstColIdx := move.e0
    if g.wasteSize == 0 || dstColIdx < 0 || dstColIdx ≥ (g.tableau.length : Int) then false
    else
      let column := g.col dstColIdx.toNat
      let srcCard := g.wasteTop
      if column.faceUp.length == 0 then
        !(srcCard.rank != (NUM_RANKS : Int) - 1)
      else
        let dstCard := column.faceUp.getD (column.faceUp.length - 1) default
        !(!areDifferentColors srcCard dstCard || srcCard.rank != dstCard.rank - 1)
  | .TABLEAU_TO_FOUNDATION =>
    let srcColIdx := move.e0
    if srcColIdx < 0 || srcColIdx ≥ (g.tableau.length : Int)
        || (g.col srcColIdx.toNat).faceUp.length == 0 then false
    else
      let column := g.col srcColIdx.toNat
      let card := column.faceUp.getD (column.faceUp.length - 1) default
      !(card.rank != g.found card.suit + 1)
  | .TABLEAU_TO_TABLEAU =>
    let srcColIdx := move.e0
    let srcRowIdx := move.e1
    let dstColIdx := move.e2
    if srcColIdx < 0 || srcColIdx ≥ (g.tableau.length : Int)
        || dstColIdx < 0 || dstColIdx ≥ (g.tableau.length : Int)
        || srcRowIdx < 0
        || srcRowIdx ≥ ((g.col srcColIdx.toNat).faceUp.length : Int) then false
    else
      let srcCard := (g.col srcColIdx.toNat).faceUp.getD srcRowIdx.toNat default
      if (g.col dstColIdx.toNat).faceUp.length == 0 then
        !(srcCard.rank != (NUM_RANKS : Int) - 1)
      else
        let dstCol := g.col dstColIdx.toNat
        let dstCard := dstCol.faceUp.getD (dstCol.faceUp.length - 1) default
        !(!areDifferentColors srcCard dstCard || srcCard.rank != dstCard.rank - 1)

/-- The exposure pass at the end of `Solitaire::apply` (array model):
for every column, if `faceUp` emptied while `faceDown` is non-empty, flip
the top face-down card. -/
def exposeColumn (c : TableauColumn) : TableauColumn :=
  if c.faceUp.length == 0 && !(c.faceDown.length == 0) then
    { faceDown := c.faceDown.dropLast,
      faceUp := c.faceUp ++ [c.faceDown.getLastD default] }
  else c

/-- `void Solitaire::apply(const Move& move)` (array model). -/
def Game.apply (g : Game) (move : Move) : Game :=
  let g' : Game :=
    match move.type with
    | .DRAW =>
      -- move waste back to hand if hand (portion) is empty, then draw
      let ws := if g.wasteSize == g.handSize then 0 else g.wasteSize
      { g with wasteSize := min (ws + g.drawSize) g.handSize }
    | .WASTE_TO_FOUNDATION =>
      let card := g.wasteTop
      { g with foundation := g.foundation.set card.suit.toNat card.rank,
               hand := g.hand.eraseIdx (g.handSize - g.wasteSize),
               wasteSize := g.wasteSize - 1 }
    | .WASTE_TO_TABLEAU =>
      let dstColIdx := move.e0.toNat
      let card := g.wasteTop
      let column := g.col dstColIdx
      { g with tableau := g.tableau.set dstColIdx
                 { column with faceUp := column.faceUp ++ [card] },
               hand := g.hand.eraseIdx (g.handSize - g.wasteSize),
               wasteSize := g.wasteSize - 1 }
    | .TABLEAU_TO_FOUNDATION =>
      let srcColIdx := move.e0.toNat
      let srcCol := g.col srcColIdx
      let card := srcCol.faceUp.getD (srcCol.faceUp.length - 1) default
      { g with tableau := g.tableau.set srcColIdx
                 { srcCol with faceUp := srcCol.faceUp.dropLast },
               foundation := g.foundation.set card.suit.toNat card.rank }
    | .TABLEAU_TO_TABLEAU =>
      let srcColIdx := move.e0.toNat
      let srcRowIdx := move.e1.toNat
      let dstColIdx := move.e2.toNat
      let srcCol := g.col srcColIdx
      let dstCol := g.col dstColIdx
      let tab := g.tableau.set dstColIdx
        { dstCol with faceUp := dstCol.faceUp ++ srcCol.faceUp.drop srcRowIdx }
      { g with tableau := tab.set srcColIdx
                 { srcCol with faceUp := srcCol.faceUp.take srcRowIdx } }
  { g' with tableau := g'.tableau.map exposeColumn }

/-- `bool Solitaire::isWon() const` (array model): hand/waste empty and no
face-down cards left. -/
def Game.isWon (g : Game) : Bool :=
  !(g.handSize > 0) && g.tableau.all fun c => !(c.faceDown.length > 0)

/-! ## The vector-based game model

The older generation of the implementation (`std::vector` members).
Moves carry a `std::vector<uint8_t>` of extras; since `uint8_t` is
unsigned, the `< 0` range checks of its `isValid` are vacuously false and
are dropped here.  Tableau columns have the same shape as in the array
model, so `TableauColumn` and `exposeColumn` are shared. -/

/-- `class Move` of the vector model: type tag plus `std::vector<uint8_t>`. -/
structure MoveV where
  type : MoveType
  extras : List Nat
deriving DecidableEq, Repr, Inhabited

/-- `class Solitaire` of the vector model. -/
structure GameV where
  drawSize : Nat
  foundation : List Int
  hand : List Card
  waste : List Card
  tableau : List TableauColumn
deriving DecidableEq, Repr, Inhabited

namespace GameV

def colV (g : GameV) (i : Nat) : TableauColumn := g.tableau.getD i default

def found (g : GameV) (s : Int) : Int := g.foundation.getD s.toNat (-1)

end GameV

/-- One dealing step of the vector constructor's loop body: pop
`_hand.back()` and place it face-up (when `row == column`) or face-down. -/
def dealStepV (st : List Card × List TableauColumn) (rc : Nat × Nat) :
    List Card × List TableauColumn :=
  let card := st.1.getLastD default
  let hand := st.1.dropLast
  let column := st.2.getD rc.2 default
  let column' :=
    if rc.1 = rc.2 then { column with faceUp := column.faceUp ++ [card] }
    else { column with faceDown := column.faceDown ++ [card] }
  (hand, st.2.set rc.2 column')

/-- `Solitaire::Solitaire(const std::vector<Card>& deck, size_t drawSize)`
(vector model): `_hand = deck`, then the same row-by-row deal popping from
the back of the hand. -/
def mkGameV (deck : List Card) (drawSize : Nat) : GameV :=
  let foundation := List.replicate NUM_SUITS (-1 : Int)
  let tab0 := List.replicate TABLEAU_SIZE ({ faceDown := [], faceUp := [] } : TableauColumn)
  let res := dealPairs.foldl dealStepV (deck, tab0)
  { drawSize := drawSize, foundation := foundation, hand := res.1,
    waste := [], tableau := res.2 }

/-- `bool Solitaire::isValid(const Move& move) const` (vector model).
The extras arity is checked here, unlike in the array model. -/
def GameV.isValid (g : GameV) (move : MoveV) : Bool :=
  match move.type with
  | .DRAW =>
    if !move.extras.isEmpty then false
    else !(g.hand.isEmpty && g.waste.isEmpty)
  | .WASTE_TO_FOUNDATION =>
    if !move.extras.isEmpty then false
    else if g.waste.isEmpty then false
    else
      let card := g.waste.getLastD default
      !(card.rank != g.found card.suit + 1)
  | .WASTE_TO_TABLEAU =>
    if move.extras.length != 1 then false
    else
      let dstColIdx := move.extras.getD 0 0
      if g.waste.isEmpty || dstColIdx ≥ g.tableau.length then false
      else
        let column := g.colV dstColIdx
        let srcCard := g.waste.getLastD default
        if column.faceUp.isEmpty then
          !(srcCard.rank != (NUM_RANKS : Int) - 1)
        else
          let dstCard := column.faceUp.getLastD default
          !(!areDifferentColors srcCard dstCard || srcCard.rank != dstCard.rank - 1)
  | .TABLEAU_TO_FOUNDATION =>
    if move.extras.length != 1 then false
    else
      let srcColIdx := move.extras.getD 0 0
      if srcColIdx ≥ g.tableau.length || (g.colV srcColIdx).faceUp.isEmpty then false
      else
        let column := g.colV srcColIdx
        let card := column.faceUp.getLastD default
        !(card.rank != g.found card.suit + 1)
  | .TABLEAU_TO_TABLEAU =>
    if move.extras.length != 3 then false
    else
      let srcColIdx := move.extras.getD 0 0
      let srcRowIdx := move.extras.getD 1 0
      let dstColIdx := move.extras.getD 2 0
      if srcColIdx ≥ g.tableau.length || dstColIdx ≥ g.tableau.length
          || srcRowIdx ≥ (g.colV srcColIdx).faceUp.length then false
      else
        let srcCard := (g.colV srcColIdx).faceUp.getD srcRowIdx default
        if (g.colV dstColIdx).faceUp.isEmpty then
          !(srcCard.rank != (NUM_RANKS : Int) - 1)
        else
          let dstCard := (g.colV dstColIdx).faceUp.getLastD default
          !(!areDifferentColors srcCard dstCard || srcCard.rank != dstCard.rank - 1)

/-- The drawing loop of the vector `apply` for a DRAW:
`while (cardsToDraw > 0 && !hand.empty()) { waste.push_back(hand.back()); hand.pop_back(); }`. -/
def drawCards : Nat → List Card → List Card → List Card × List Card
  | 0, hand, waste => (hand, waste)
  | n + 1, hand, waste =>
    if hand.isEmpty then (hand, waste)
    else drawCards n hand.dropLast (waste ++ [hand.getLastD default])

/-- `void Solitaire::apply(const Move& move)` (vector model). -/
def GameV.apply (g : GameV) (move : MoveV) : GameV :=
  let g' : GameV :=
    match move.type with
    | .DRAW =>
      -- move waste back to hand (reversed) if hand is empty, then draw
      let (hand, waste) :=
        if g.hand.isEmpty then (g.waste.reverse, []) else (g.hand, g.waste)
      let (hand', waste') := drawCards g.drawSize hand waste
      { g with hand := hand', waste := waste' }
    | .WASTE_TO_FOUNDATION =>
      let card := g.waste.getLastD default
      { g with foundation := g.foundation.set card.suit.toNat card.rank,
               waste := g.waste.dropLast }
    | .WASTE_TO_TABLEAU =>
      let dstColIdx := move.extras.getD 0 0
      let card := g.waste.getLastD default
      let column := g.colV dstColIdx
      { g with tableau := g.tableau.set dstColIdx
                 { column with faceUp := column.faceUp ++ [card] },
               waste := g.waste.dropLast }
    | .TABLEAU_TO_FOUNDATION =>
      let srcColIdx := move.extras.getD 0 0
      let srcCol := g.colV srcColIdx
      let card := srcCol.faceUp.getLastD default
      { g with tableau := g.tableau.set srcColIdx
                 { srcCol with faceUp := srcCol.faceUp.dropLast },
               foundation := g.foundation.set card.suit.toNat card.rank }
    | .TABLEAU_TO_TABLEAU =>
      let srcColIdx := move.extras.getD 0 0
      let srcRowIdx := move.extras.getD 1 0
      let dstColIdx := move.extras.getD 2 0
      let srcCol := g.colV srcColIdx
      let dstCol := g.colV dstColIdx
      let tab := g.tableau.set dstColIdx
        { dstCol with faceUp := dstCol.faceUp ++ srcCol.faceUp.drop srcRowIdx }
      { g with tableau := tab.set srcColIdx
                 { srcCol with faceUp := srcCol.faceUp.take srcRowIdx } }
  { g' with tableau := g'.tableau.map exposeColumn }

/-- `bool Solitaire::isWon() const` (vector model). -/
def GameV.isWon (g : GameV) : Bool :=
  !(!g.hand.isEmpty || !g.waste.isEmpty) &&
    g.tableau.all fun c => !(!c.faceDown.isEmpty)

/-! ## The solver (array model, `Solver.h`/`Solver.cpp` of the rewrite)

Wall-clock time is abstracted into an oracle `timedOut : Nat → Bool`
giving the outcome of the n-th `now() - startTime >= timeout` comparison;
a counter of performed comparisons is threaded through the search.  The
depth-first recursion is given an explicit fuel (the C++ recursion has no
such bound; every theorem quantifies over or fixes the fuel).  Diagnostic
printing is a side effect only and is not modelled, but the `_numCalls`
counter it uses is. -/

/-- `SUIT_CHARS = {'S', 'H', 'D', 'C'}` as ASCII bytes. -/
def SUIT_CHARS : List Nat := [83, 72, 68, 67]

/-- `RANK_CHARS = {'A','2','3','4','5','6','7','8','9','T','J','Q','K'}`
as ASCII bytes. -/
def RANK_CHARS : List Nat := [65, 50, 51, 52, 53, 54, 55, 56, 57, 84, 74, 81, 75]

def rankChar (r : Int) : Nat := RANK_CHARS.getD r.toNat 0
def suitChar (s : Int) : Nat := SUIT_CHARS.getD s.toNat 0

/-- The separator byte `'|'`. -/
def SEPARATOR : Nat := 124

/-- `folly::hash::fnv64_buf`: the FNV-1 64-bit hash (multiply by the FNV
prime `2^40 + 2^8 + 0xb3` via shifts, then xor the byte), on `Nat` with
an explicit `% 2^64`. -/
def fnv64Step (hash byte : Nat) : Nat :=
  Nat.xor (hash * 1099511628211 % 2 ^ 64) byte

def fnv64 (bytes : List Nat) : Nat :=
  bytes.foldl fnv64Step 14695981039346656037

/-- `folly::EvictingCacheMap<uint64_t, ν>`: a bounded LRU map, modelled as
an association list with the most recently used entry first. -/
structure EvictingCacheMap (ν : Type) where
  capacity : Nat
  entries : List (Nat × ν)
deriving Repr

namespace EvictingCacheMap

/-- `exists()` — a lookup that does not promote. -/
def existsKey (m : EvictingCacheMap ν) (k : Nat) : Bool :=
  m.entries.any fun e => e.1 == k

/-- `get()` — returns the stored value and promotes the entry to
most-recently-used.  The C++ `get` throws when the key is missing; the
solver only calls it after `exists()`, so a default is returned then. -/
def get (m : EvictingCacheMap ν) (k : Nat) (dflt : ν) :
    ν × EvictingCacheMap ν :=
  match m.entries.find? (fun e => e.1 == k) with
  | some e => (e.2, { m with entries := e :: m.entries.filter fun e' => !(e'.1 == k) })
  | none => (dflt, m)

/-- `set()` — insert or update (promoting), evicting the least recently
used entries down to the capacity. -/
def set (m : EvictingCacheMap ν) (k : Nat) (v : ν) : EvictingCacheMap ν :=
  { m with entries := ((k, v) :: m.entries.filter fun e => !(e.1 == k)).take m.capacity }

end EvictingCacheMap

def MAX_VALID_MOVES : Nat := 25
def MAX_VALID_TABLEAU_MOVES : Nat := 14

/-- Insert `x` after every element `y` with `le y x` (stable insertion). -/
def insertLe (le : α → α → Bool) (x : α) : List α → List α
  | [] => [x]
  | y :: ys => if le y x then y :: insertLe le x ys else x :: y :: ys

/-- A stable sort by a total boolean `le` (insertion sort; used where the
C++ calls `std::sort`, whose order on equivalent elements is unspecified —
the stable order of the generation sequence is one allowed outcome). -/
def stableSortLe (le : α → α → Bool) (l : List α) : List α :=
  l.foldl (fun acc x => insertLe le x acc) []

/-- `Solver::_addAceMoves`: waste/tableau cards of rank 0 are pushed as
foundation moves without an `isValid` check. -/
def addAceMoves (g : Game) : List Move :=
  (if g.wasteSize > 0 && (g.hand.getD (g.handSize - g.wasteSize) default).rank == 0
   then [⟨.WASTE_TO_FOUNDATION, -1, -1, -1⟩] else [])
  ++ ((List.range g.tableau.length).filterMap fun srcColIdx =>
       let column := g.col srcColIdx
       if column.faceUp.length > 0
           && (column.faceUp.getD (column.faceUp.length - 1) default).rank == 0 then
         some ⟨.TABLEAU_TO_FOUNDATION, (srcColIdx : Int), -1, -1⟩
       else none)

/-- `Solver::_addToFoundationMoves`: non-ace to-foundation moves, guarded
by `isValid`. -/
def addToFoundationMoves (g : Game) : List Move :=
  (if g.wasteSize > 0 && !((g.hand.getD (g.handSize - g.wasteSize) default).rank == 0)
   then
     let move : Move := ⟨.WASTE_TO_FOUNDATION, -1, -1, -1⟩
     if g.isValid move then [move] else []
   else [])
  ++ ((List.range g.tableau.length).filterMap fun srcColIdx =>
       let column := g.col srcColIdx
       if column.faceUp.length > 0
           && !((column.faceUp.getD (column.faceUp.length - 1) default).rank == 0) then
         let move : Move := ⟨.TABLEAU_TO_FOUNDATION, (srcColIdx : Int), -1, -1⟩
         if g.isValid move then some move else none
       else none)

/-- The comparator of `Solver::_addCardRevealingMoves` (a strict order on
moves by face-down count of the source column, direction depending on
`needsKingSpace`, ties by source column index). -/
def revealLess (g : Game) (needsKingSpace : Bool) (lhs rhs : Move) : Bool :=
  let lhsColIdx := lhs.e0
  let rhsColIdx := rhs.e0
  let lhsCount := (g.col lhsColIdx.toNat).faceDown.length
  let rhsCount := (g.col rhsColIdx.toNat).faceDown.length
  if lhsCount == rhsCount then lhsColIdx < rhsColIdx
  else if needsKingSpace then lhsCount < rhsCount
  else rhsCount < lhsCount

/-- `Solver::_addCardRevealingMoves`: whole-stack tableau moves from
columns with face-down cards, sorted by the comparator above.  (`std::sort`
leaves the order of equivalent elements unspecified; we use a stable sort
of the generation order, which is one allowed outcome.) -/
def addCardRevealingMoves (g : Game) : List Move :=
  let needsKingSpace := !(g.tableau.any fun c => c.faceUp.length == 0)
  let newMoves := (List.range g.tableau.length).flatMap fun srcColIdx =>
    let srcCol := g.col srcColIdx
    if srcCol.faceUp.length == 0 then []
    else if srcCol.faceDown.length > 0 then
      ((List.range g.tableau.length).filter fun dstColIdx => !(srcColIdx == dstColIdx)).filterMap
        fun dstColIdx =>
          let move : Move := ⟨.TABLEAU_TO_TABLEAU, (srcColIdx : Int), 0, (dstColIdx : Int)⟩
          if g.isValid move then some move else none
    else []
  stableSortLe (fun a b => !(revealLess g needsKingSpace b a)) newMoves

/-- `Solver::_addWasteToTableauMoves`. -/
def addWasteToTableauMoves (g : Game) : List Move :=
  (List.range g.tableau.length).filterMap fun dstColIdx =>
    let move : Move := ⟨.WASTE_TO_TABLEAU, (dstColIdx : Int), -1, -1⟩
    if g.isValid move then some move else none

/-- `Solver::_addDrawMove`. -/
def addDrawMove (g : Game) : List Move :=
  let move : Move := ⟨.DRAW, -1, -1, -1⟩
  if g.isValid move then [move] else []

/-- The cache key bytes of `Solver::_addTableauToTableauMoves`: per column
`'0' + colIdx`, `'0' + faceDownSize`, the face-up cards, `'|'`. -/
def t2tCacheKey (g : Game) : List Nat :=
  (List.range g.tableau.length).flatMap fun i =>
    let column := g.col i
    [48 + i, 48 + column.faceDown.length]
    ++ (column.faceUp.flatMap fun c => [rankChar c.rank, suitChar c.suit])
    ++ [SEPARATOR]

/-- The non-revealing tableau-to-tableau moves computed (and cached) by
`Solver::_addTableauToTableauMoves` when the cache misses: source rows
start at 1. -/
def nonRevealingMoves (g : Game) : List Move :=
  (List.range g.tableau.length).flatMap fun srcColIdx =>
    (List.range' 1 ((g.col srcColIdx).faceUp.length - 1)).flatMap fun srcRowIdx =>
      ((List.range g.tableau.length).filter fun dstColIdx => !(srcColIdx == dstColIdx)).filterMap
        fun dstColIdx =>
          let move : Move := ⟨.TABLEAU_TO_TABLEAU, (srcColIdx : Int), (srcRowIdx : Int),
                              (dstColIdx : Int)⟩
          if g.isValid move then some move else none

/-- `Solver::_addTableauToTableauMoves`: consult the move cache keyed by
the FNV-64 hash of the tableau key, computing and caching on a miss.
The returned `Bool` is ghost instrumentation only (it does not influence
any behaviour): it is `false` when a cache hit returned a move list other
than the one that would be computed afresh for this tableau — which can
only happen through an FNV-64 collision of two different tableau keys. -/
def addTableauToTableauMoves (g : Game) (cache : EvictingCacheMap (List Move)) :
    List Move × EvictingCacheMap (List Move) × Bool :=
  let cacheKeyHash := fnv64 (t2tCacheKey g)
  if cache.existsKey cacheKeyHash then
    let (cached, cache') := cache.get cacheKeyHash []
    (cached, cache', cached == nonRevealingMoves g)
  else
    let newMoves := nonRevealingMoves g
    (newMoves, cache.set cacheKeyHash newMoves, true)

/-- `Solver::_getValidMoves`: the six move groups in priority order. -/
def getValidMoves (g : Game) (cache : EvictingCacheMap (List Move)) :
    List Move × EvictingCacheMap (List Move) × Bool :=
  let (t2t, cache', sound) := addTableauToTableauMoves g cache
  (addAceMoves g ++ addToFoundationMoves g ++ addCardRevealingMoves g
    ++ addWasteToTableauMoves g ++ addDrawMove g ++ t2t, cache', sound)

/-- The tableau-sorting comparator of `Solver::_getGameCacheStr`: columns
with face-down cards (by index) before all-face-up columns (by first
face-up card) before empty columns. -/
def cacheColLess (g : Game) (i1 i2 : Nat) : Bool :=
  let lhs := g.col i1
  let rhs := g.col i2
  if lhs.faceDown.length > 0 && rhs.faceDown.length > 0 then i1 < i2
  else if lhs.faceDown.length > 0 && rhs.faceDown.length == 0 then true
  else if lhs.faceDown.length == 0 && rhs.faceDown.length > 0 then false
  else
    if lhs.faceUp.length > 0 && rhs.faceUp.length > 0 then
      decide (Card.lt (lhs.faceUp.getD 0 default) (rhs.faceUp.getD 0 default))
    else if lhs.faceUp.length > 0 && rhs.faceUp.length == 0 then true
    else if lhs.faceUp.length == 0 && rhs.faceUp.length > 0 then false
    else i1 < i2

/-- The canonical byte sequence assembled by `Solver::_getGameCacheStr`
before hashing: `canFlip | wasteIdx | hand | foundation | tableau`. -/
def getGameCacheBytes (g : Game) (canFlipDeck : Bool) : List Nat :=
  [if canFlipDeck then 49 else 48]
  ++ [97 + g.wasteSize]
  ++ (g.hand.flatMap fun c => [rankChar c.rank, suitChar c.suit])
  ++ [SEPARATOR]
  ++ (g.foundation.map fun f => if f ≥ 0 then rankChar f else 48)
  ++ [SEPARATOR]
  ++ ((stableSortLe (fun i j => !(cacheColLess g j i)) (List.range g.tableau.length)).flatMap
      fun i =>
        let column := g.col i
        (if column.faceDown.length > 0 then [48 + i, 48 + column.faceDown.length] else [])
        ++ (column.faceUp.flatMap fun c => [rankChar c.rank, suitChar c.suit])
        ++ [SEPARATOR])

/-- `Solver::_getGameCacheStr`: the FNV-64 hash of the canonical bytes. -/
def getGameCacheStr (g : Game) (canFlipDeck : Bool) : Nat :=
  fnv64 (getGameCacheBytes g canFlipDeck)

/-- `std::set` insertion (no-op when present). -/
def setInsert [DecidableEq α] (s : List α) (x : α) : List α :=
  if x ∈ s then s else x :: s

/-- `std::set` erasure. -/
def setErase [DecidableEq α] (s : List α) (x : α) : List α :=
  s.filter fun y => y ≠ x

/-- `game.hand()` in the array model returns the whole fixed
`std::array<Card, MAX_HAND_SIZE>`, so `game.hand().empty()` is
`MAX_HAND_SIZE == 0` — independent of the game state. -/
def Game.handArrayEmpty (_ : Game) : Bool := MAX_HAND_SIZE == 0

/-- The mutable solver members threaded through the search: the two
caches, the `_numCalls` counter, plus the clock-read counter of the time
abstraction and the ghost move-cache soundness flag (see
`addTableauToTableauMoves`). -/
structure SState where
  stateCache : EvictingCacheMap Nat
  tableauMoveCache : EvictingCacheMap (List Move)
  numCalls : Nat
  clock : Nat
  cacheSound : Bool

/-- `Solver::_maybeApplyMove`, parametrized by the recursive continuation
(`_solveImpl` at the current fuel): adjust `canFlipDeck`, clone and apply,
consult/maintain the seen-stack set, recurse. -/
def maybeApplyMoveF
    (recurse : Game → List (List Card) → Bool → Nat → SState →
      Option (List Move) × List (List Card) × SState)
    (move : Move) (game : Game) (seenCardStacks : List (List Card))
    (canFlipDeck : Bool) (depth : Nat) (st : SState) :
    Option (List Move) × List (List Card) × SState :=
  -- canFlipDeck adjustment; a DRAW from an "empty" hand needs the flag
  let canFlipDeck? : Option Bool :=
    if move.type == .DRAW then
      if game.handArrayEmpty then
        if canFlipDeck then some false else none
      else some canFlipDeck
    else if move.type == .WASTE_TO_FOUNDATION
        || move.type == .WASTE_TO_TABLEAU then some true
    else some canFlipDeck
  match canFlipDeck? with
  | none => (none, seenCardStacks, st)
  | some canFlipDeck =>
    let clonedGame := game.apply move
    -- stacks created on the tableau that we have already seen
    let newStacks : List (List Card) :=
      if move.type == .TABLEAU_TO_TABLEAU then
        [(clonedGame.col move.e0.toNat).faceUp, (clonedGame.col move.e2.toNat).faceUp]
      else []
    if move.type == .TABLEAU_TO_TABLEAU
        && decide ((clonedGame.col move.e0.toNat).faceUp ∈ seenCardStacks)
        && decide ((clonedGame.col move.e2.toNat).faceUp ∈ seenCardStacks) then
      -- neither stack is new, abort
      (none, seenCardStacks, st)
    else
      let seen' := newStacks.foldl setInsert seenCardStacks
      let res := recurse clonedGame seen' canFlipDeck (depth + 1) st
      -- back out changes made by applying this move before backtracking
      (res.1, newStacks.foldl setErase res.2.1, res.2.2)

/-- The candidate loop at the end of `Solver::_solveImpl`: try each move
in order, prepending the first move whose branch wins. -/
def tryMovesF
    (step : Move → List (List Card) → Bool → Nat → SState →
      Option (List Move) × List (List Card) × SState) :
    List Move → List (List Card) → Bool → Nat → SState →
    Option (List Move) × List (List Card) × SState
  | [], seen, _, _, st => (none, seen, st)
  | move :: rest, seen, canFlipDeck, depth, st =>
    let res := step move seen canFlipDeck depth st
    match res.1 with
    | some remainingMoves => (some (move :: remainingMoves), res.2.1, res.2.2)
    | none => tryMovesF step rest res.2.1 canFlipDeck depth res.2.2

/-- `Solver::_solveImpl` with explicit fuel: timeout check, win check,
state-cache pruning, then the candidate loop. -/
def solveImpl (timedOut : Nat → Bool) :
    Nat → Game → List (List Card) → Bool → Nat → SState →
    Option (List Move) × List (List Card) × SState
  | 0, _, seen, _, _, st => (none, seen, st)
  | fuel + 1, game, seen, canFlipDeck, depth, st =>
    let expired := timedOut st.clock
    let st := { st with clock := st.clock + 1 }
    if expired then (none, seen, st)
    else if game.isWon then (some [], seen, st)
    else
      let gameCacheStr := getGameCacheStr game canFlipDeck
      if st.stateCache.existsKey gameCacheStr then
        -- exists() does not promote
        (none, seen, { st with stateCache := (st.stateCache.get gameCacheStr 0).2 })
      else
        let st := { st with stateCache := st.stateCache.set gameCacheStr 1,
                            numCalls := st.numCalls + 1 }
        let gvm := getValidMoves game st.tableauMoveCache
        let st := { st with tableauMoveCache := gvm.2.1,
                            cacheSound := st.cacheSound && gvm.2.2 }
        tryMovesF (fun m => maybeApplyMoveF (solveImpl timedOut fuel) m game)
          gvm.1 seen canFlipDeck depth st

/-- `Solver::_maybeApplyMove` proper (the continuation instantiated). -/
def maybeApplyMove (timedOut : Nat → Bool) (fuel : Nat) (move : Move) (game : Game)
    (seenCardStacks : List (List Card)) (canFlipDeck : Bool) (depth : Nat) (st : SState) :
    Option (List Move) × List (List Card) × SState :=
  maybeApplyMoveF (solveImpl timedOut fuel) move game seenCardStacks canFlipDeck depth st

inductive SolverStatus
  | SOLVED
  | TIMEOUT
  | NO_SOLUTION
deriving DecidableEq, Repr

structure SolverResult where
  status : SolverStatus
  elapsed : Nat
  moves : List Move
deriving Repr

/-- `Solver::solve()`: run the search from the configured game with an
empty seen-set, `canFlipDeck = false` and depth 0, then classify the
outcome, re-reading the clock at return time.  `elapsed` abstracts the
wall-clock duration as the number of clock reads.  The final solver state
is returned alongside the result for specification purposes. -/
def solve (timedOut : Nat → Bool) (fuel : Nat) (game : Game)
    (stateCacheCapacity moveCacheCapacity : Nat) : SolverResult × SState :=
  let st0 : SState :=
    { stateCache := ⟨stateCacheCapacity, []⟩,
      tableauMoveCache := ⟨moveCacheCapacity, []⟩,
      numCalls := 0, clock := 0, cacheSound := true }
  let (winningMoves, _, st) := solveImpl timedOut fuel game [] false 0 st0
  let expired := timedOut st.clock
  let st := { st with clock := st.clock + 1 }
  match winningMoves with
  | some ms => ({ status := .SOLVED, elapsed := st.clock, moves := ms }, st)
  | none =>
    if expired then ({ status := .TIMEOUT, elapsed := st.clock, moves := [] }, st)
    else ({ status := .NO_SOLUTION, elapsed := st.clock, moves := [] }, st)

/-! ## Spec-side notions: replay, reachability, test decks -/

/-- Sequential validity of a move list: each move satisfies `isValid` in
the state where it is applied (the spec's replay property). -/
def validSeq (g : Game) : List Move → Bool
  | [] => true
  | m :: ms => g.isValid m && validSeq (g.apply m) ms

/-- The state after replaying a move list. -/
def replayFinal (g : Game) : List Move → Game
  | [] => g
  | m :: ms => replayFinal (g.apply m) ms

/-- States reachable from a freshly dealt game by valid moves. -/
inductive ReachableA : Game → Prop
  | base (deck : List Card) (drawSize : Nat) : ReachableA (mkGame deck drawSize)
  | step {g : Game} {m : Move} : ReachableA g → g.isValid m = true →
      ReachableA (g.apply m)

/-- The sorted test deck A♠..K♠, A♥..K♥, A♦..K♦, A♣..K♣. -/
def sortedDeck : List Card :=
  (List.range 52).map fun i => ⟨((i / 13 : Nat) : Int), ((i % 13 : Nat) : Int)⟩

/-- Modelled from the spec: «The remaining 28 cards populate the tableau
column-by-column: for column index `c` in 0..6, place `c` face-down cards
on top of the column, then place one face-up card» — with the remaining
cards `deck[24..51]` consumed in deck order. -/
def dealColumnwise (deck : List Card) : List TableauColumn :=
  let rest := deck.drop MAX_HAND_SIZE
  (List.range TABLEAU_SIZE).map fun c =>
    let start := c * (c + 1) / 2
    { faceDown := (rest.drop start).take c,
      faceUp := [rest.getD (start + c) default] }

/-- Modelled from the spec, alternative reading: the same column-by-column
deal but consuming the remaining cards from the top (back) of the deck,
the way the implementation's dealing loop consumes them. -/
def dealColumnwiseFromTop (deck : List Card) : List TableauColumn :=
  (List.range TABLEAU_SIZE).map fun c =>
    let start := c * (c + 1) / 2
    let consumed := (List.range (c + 1)).map fun j =>
      deck.getD (deck.length - 1 - (start + j)) default
    { faceDown := consumed.take c, faceUp := [consumed.getD c default] }

/-- The tableau produced by the constructor, spelled out: the deal is row
by row from the back of the deck (row 0 into columns 0..6, row 1 into
columns 1..6, …), the card at row `r = c` face-up. -/
theorem mkGame_tableau_eq (deck : List Card) (ds : Nat) (h52 : deck.length = 52) :
    (mkGame deck ds).tableau =
      [⟨[], [deck.getD 51 default]⟩,
       ⟨[deck.getD 50 default], [deck.getD 44 default]⟩,
       ⟨[deck.getD 49 default, deck.getD 43 default], [deck.getD 38 default]⟩,
       ⟨[deck.getD 48 default, deck.getD 42 default, deck.getD 37 default],
        [deck.getD 33 default]⟩,
       ⟨[deck.getD 47 default, deck.getD 41 default, deck.getD 36 default,
         deck.getD 32 default], [deck.getD 29 default]⟩,
       ⟨[deck.getD 46 default, deck.getD 40 default, deck.getD 35 default,
         deck.getD 31 default, deck.getD 28 default], [deck.getD 26 default]⟩,
       ⟨[deck.getD 45 default, deck.getD 39 default, deck.getD 34 default,
         deck.getD 30 default, deck.getD 27 default, deck.getD 25 default],
        [deck.getD 24 default]⟩] := by
  have hdp : dealPairs =
      [(0,0),(0,1),(0,2),(0,3),(0,4),(0,5),(0,6),
       (1,1),(1,2),(1,3),(1,4),(1,5),(1,6),
       (2,2),(2,3),(2,4),(2,5),(2,6),
       (3,3),(3,4),(3,5),(3,6),
       (4,4),(4,5),(4,6),
       (5,5),(5,6),
       (6,6)] := by rfl
  simp only [mkGame, hdp, h52, TABLEAU_SIZE, List.replicate]
  simp [dealStep, List.set, List.getD]
  exact ⟨rfl, rfl⟩

/-- C2, counterexample: the constructor does not deal the tableau
column-by-column.  On the sorted deck the constructed tableau differs
from the column-by-column deal under either consumption order of the
remaining 28 cards. -/
theorem C2_not_columnwise :
    (mkGame sortedDeck 3).tableau ≠ dealColumnwise sortedDeck ∧
    (mkGame sortedDeck 3).tableau ≠ dealColumnwiseFromTop sortedDeck := by
  decide

/-- C2 (amended): the first 24 cards (in deck order, hand-bottom at
index 0) become the hand, and the remaining 28 cards are dealt into the
tableau row by row from the back of the deck — for each row `r` in 0..6
one card to each of columns `r..6`, face-up exactly on the diagonal — so
that every column `i` ends with exactly `i` face-down cards and exactly
one face-up card. -/
theorem C2_deal_rowMajor (deck : List Card) (ds : Nat) (h52 : deck.length = 52) :
    (mkGame deck ds).hand = deck.take 24 ∧
    (mkGame deck ds).tableau =
      [⟨[], [deck.getD 51 default]⟩,
       ⟨[deck.getD 50 default], [deck.getD 44 default]⟩,
       ⟨[deck.getD 49 default, deck.getD 43 default], [deck.getD 38 default]⟩,
       ⟨[deck.getD 48 default, deck.getD 42 default, deck.getD 37 default],
        [deck.getD 33 default]⟩,
       ⟨[deck.getD 47 default, deck.getD 41 default, deck.getD 36 default,
         deck.getD 32 default], [deck.getD 29 default]⟩,
       ⟨[deck.getD 46 default, deck.getD 40 default, deck.getD 35 default,
         deck.getD 31 default, deck.getD 28 default], [deck.getD 26 default]⟩,
       ⟨[deck.getD 45 default, deck.getD 39 default, deck.getD 34 default,
         deck.getD 30 default, deck.getD 27 default, deck.getD 25 default],
        [deck.getD 24 default]⟩] ∧
    (∀ i < TABLEAU_SIZE, ((mkGame deck ds).col i).faceDown.length = i ∧
      ((mkGame deck ds).col i).faceUp.length = 1) := by
  have htab := mkGame_tableau_eq deck ds h52
  refine ⟨rfl, htab, ?_⟩
  intro i hi
  have hcol : (mkGame deck ds).col i = ((mkGame deck ds).tableau).getD i default := rfl
  rw [hcol, htab]
  simp only [TABLEAU_SIZE] at hi
  interval_cases i <;> simp

/-- C2 witness: the amended characterization evaluated on the sorted
deck. -/
theorem C2_deal_rowMajor_witness :
    sortedDeck.length = 52 ∧
    ((mkGame sortedDeck 3).hand = sortedDeck.take 24 ∧
     (mkGame sortedDeck 3).tableau =
       [⟨[], [sortedDeck.getD 51 default]⟩,
        ⟨[sortedDeck.getD 50 default], [sortedDeck.getD 44 default]⟩,
        ⟨[sortedDeck.getD 49 default, sortedDeck.getD 43 default],
         [sortedDeck.getD 38 default]⟩,
        ⟨[sortedDeck.getD 48 default, sortedDeck.getD 42 default,
          sortedDeck.getD 37 default], [sortedDeck.getD 33 default]⟩,
        ⟨[sortedDeck.getD 47 default, sortedDeck.getD 41 default,
          sortedDeck.getD 36 default, sortedDeck.getD 32 default],
         [sortedDeck.getD 29 default]⟩,
        ⟨[sortedDeck.getD 46 default, sortedDeck.getD 40 default,
          sortedDeck.getD 35 default, sortedDeck.getD 31 default,
          sortedDeck.getD 28 default], [sortedDeck.getD 26 default]⟩,
        ⟨[sortedDeck.getD 45 default, sortedDeck.getD 39 default,
          sortedDeck.getD 34 default, sortedDeck.getD 30 default,
          sortedDeck.getD 27 default, sortedDeck.getD 25 default],
         [sortedDeck.getD 24 default]⟩] ∧
     (∀ i < TABLEAU_SIZE, ((mkGame sortedDeck 3).col i).faceDown.length = i ∧
       ((mkGame sortedDeck 3).col i).faceUp.length = 1)) :=
  ⟨by decide, C2_deal_rowMajor sortedDeck 3 (by decide)⟩

/-! ## C3: DRAW semantics, C6: exposure invariant -/

/-- A column satisfying the exposure invariant is unchanged by the
exposure pass. -/
theorem exposeColumn_eq_self (c : TableauColumn) (h : c.faceUp = [] → c.faceDown = []) :
    exposeColumn c = c := by
  unfold exposeColumn
  rcases hu : c.faceUp with _ | ⟨x, xs⟩
  · simp [h hu]
  · simp [hu]

/-- After the exposure pass, a column with empty `faceUp` has empty
`faceDown`. -/
theorem exposeColumn_empty (c : TableauColumn) :
    (exposeColumn c).faceUp = [] → (exposeColumn c).faceDown = [] := by
  unfold exposeColumn
  by_cases hc : c.faceUp.length == 0 && !(c.faceDown.length == 0)
  · simp [hc]
  · simp only [hc, if_neg, Bool.false_eq_true, not_false_iff, if_false]
    intro hu
    simp only [Bool.and_eq_true, beq_iff_eq, Bool.not_eq_true', beq_eq_false_iff_ne,
      not_and, not_not] at hc
    exact List.length_eq_zero.mp (hc (by simp [hu]))

/-- C3: for every state in which DRAW is valid (and which satisfies the
documented structural exposure invariant), `apply(DRAW)` leaves the hand
sequence — the talon order — literally unchanged (in particular the
recycling reset does not reverse it), sets `wasteSize` to
`min((wasteSize == handSize ? 0 : wasteSize) + drawSize, handSize)`, and
changes neither the foundation nor the tableau. -/
theorem C3_draw_semantics (g : Game)
    (hexp : ∀ c ∈ g.tableau, c.faceUp = [] → c.faceDown = [])
    (hvalid : g.isValid ⟨.DRAW, -1, -1, -1⟩ = true) :
    (g.apply ⟨.DRAW, -1, -1, -1⟩).hand = g.hand ∧
    (g.apply ⟨.DRAW, -1, -1, -1⟩).wasteSize =
      min ((if g.wasteSize = g.handSize then 0 else g.wasteSize) + g.drawSize)
        g.handSize ∧
    (g.apply ⟨.DRAW, -1, -1, -1⟩).foundation = g.foundation ∧
    (g.apply ⟨.DRAW, -1, -1, -1⟩).tableau = g.tableau := by
  have hmap : ∀ l : List TableauColumn, (∀ c ∈ l, c.faceUp = [] → c.faceDown = []) →
      l.map exposeColumn = l := by
    intro l hl
    induction l with
    | nil => rfl
    | cons a t ih =>
      simp only [List.map_cons, exposeColumn_eq_self a (hl a (by simp)),
        ih fun c hc => hl c (by simp [hc])]
  have htab : g.tableau.map exposeColumn = g.tableau := hmap g.tableau hexp
  exact ⟨rfl, by unfold Game.apply; simp only [beq_iff_eq], rfl, htab⟩

/-- C3 witness: the freshly dealt sorted deck. -/
theorem C3_draw_semantics_witness :
    (∀ c ∈ (mkGame sortedDeck 3).tableau, c.faceUp = [] → c.faceDown = []) ∧
    (mkGame sortedDeck 3).isValid ⟨.DRAW, -1, -1, -1⟩ = true ∧
    (((mkGame sortedDeck 3).apply ⟨.DRAW, -1, -1, -1⟩).hand = (mkGame sortedDeck 3).hand ∧
     ((mkGame sortedDeck 3).apply ⟨.DRAW, -1, -1, -1⟩).wasteSize =
       min ((if (mkGame sortedDeck 3).wasteSize = (mkGame sortedDeck 3).handSize then 0
             else (mkGame sortedDeck 3).wasteSize) + (mkGame sortedDeck 3).drawSize)
         (mkGame sortedDeck 3).handSize ∧
     ((mkGame sortedDeck 3).apply ⟨.DRAW, -1, -1, -1⟩).foundation =
       (mkGame sortedDeck 3).foundation ∧
     ((mkGame sortedDeck 3).apply ⟨.DRAW, -1, -1, -1⟩).tableau =
       (mkGame sortedDeck 3).tableau) :=
  ⟨by decide, by decide, C3_draw_semantics _ (by decide) (by decide)⟩

/-- Every column of a freshly dealt game has a non-empty `faceUp`. -/
theorem mkGame_faceUp_ne_nil (deck : List Card) (ds : Nat) :
    ∀ c ∈ (mkGame deck ds).tableau, c.faceUp ≠ [] := by
  have hdp : dealPairs =
      [(0,0),(0,1),(0,2),(0,3),(0,4),(0,5),(0,6),
       (1,1),(1,2),(1,3),(1,4),(1,5),(1,6),
       (2,2),(2,3),(2,4),(2,5),(2,6),
       (3,3),(3,4),(3,5),(3,6),
       (4,4),(4,5),(4,6),
       (5,5),(5,6),
       (6,6)] := by rfl
  simp only [mkGame, hdp, TABLEAU_SIZE, List.replicate]
  simp [dealStep, List.set, List.getD]

/-- C6: in every state reachable from a freshly dealt game by valid
moves, a tableau column with empty `faceUp` also has empty `faceDown`
(the exposure pass at the end of `apply` flips the top face-down card of
any column whose face-up stack emptied). -/
theorem C6_exposure_invariant (g : Game) (h : ReachableA g) :
    ∀ c ∈ g.tableau, c.faceUp = [] → c.faceDown = [] := by
  induction h with
  | base deck ds =>
    intro c hc hu
    exact absurd hu (mkGame_faceUp_ne_nil deck ds c hc)
  | @step g' m _ _ _ =>
    intro c hc
    unfold Game.apply at hc
    simp only [List.mem_map] at hc
    obtain ⟨d, _, rfl⟩ := hc
    exact exposeColumn_empty d

/-- C6 witness: the freshly dealt sorted deck. -/
theorem C6_exposure_invariant_witness :
    ReachableA (mkGame sortedDeck 3) ∧
    ∀ c ∈ (mkGame sortedDeck 3).tableau, c.faceUp = [] → c.faceDown = [] :=
  ⟨ReachableA.base sortedDeck 3,
   C6_exposure_invariant _ (ReachableA.base sortedDeck 3)⟩

/-! ## C9: status classification of `solve` -/

/-- C9: `solve` returns SOLVED exactly when the recursive search returned
a move list (which then becomes `result.moves`); when the search returned
none, the status is TIMEOUT exactly when the clock check performed at
return time reports expiry, and NO_SOLUTION otherwise — and in both
non-SOLVED cases the move list is empty. -/
theorem C9_solve_status (timedOut : Nat → Bool) (fuel : Nat) (game : Game)
    (scap mcap : Nat) :
    ((solve timedOut fuel game scap mcap).1.status = .SOLVED ↔
      ∃ ms, (solveImpl timedOut fuel game [] false 0
        ⟨⟨scap, []⟩, ⟨mcap, []⟩, 0, 0, true⟩).1 = some ms) ∧
    (∀ ms, (solveImpl timedOut fuel game [] false 0
        ⟨⟨scap, []⟩, ⟨mcap, []⟩, 0, 0, true⟩).1 = some ms →
      (solve timedOut fuel game scap mcap).1.moves = ms) ∧
    ((solveImpl timedOut fuel game [] false 0
        ⟨⟨scap, []⟩, ⟨mcap, []⟩, 0, 0, true⟩).1 = none →
      (solve timedOut fuel game scap mcap).1.moves = [] ∧
      (solve timedOut fuel game scap mcap).1.status =
        (if timedOut (solveImpl timedOut fuel game [] false 0
            ⟨⟨scap, []⟩, ⟨mcap, []⟩, 0, 0, true⟩).2.2.clock
         then .TIMEOUT else .NO_SOLUTION)) := by
  rcases hr : solveImpl timedOut fuel game [] false 0
      ⟨⟨scap, []⟩, ⟨mcap, []⟩, 0, 0, true⟩ with ⟨mv, seenF, stF⟩
  rcases mv with _ | ms
  · by_cases ht : timedOut stF.clock <;> simp [solve, hr, ht]
  · simp [solve, hr]

/-- C9 witness: an immediately expiring clock on the sorted deck. -/
theorem C9_solve_status_witness :
    ((solve (fun _ => true) 1 (mkGame sortedDeck 3) 10 10).1.status = .SOLVED ↔
      ∃ ms, (solveImpl (fun _ => true) 1 (mkGame sortedDeck 3) [] false 0
        ⟨⟨10, []⟩, ⟨10, []⟩, 0, 0, true⟩).1 = some ms) ∧
    (∀ ms, (solveImpl (fun _ => true) 1 (mkGame sortedDeck 3) [] false 0
        ⟨⟨10, []⟩, ⟨10, []⟩, 0, 0, true⟩).1 = some ms →
      (solve (fun _ => true) 1 (mkGame sortedDeck 3) 10 10).1.moves = ms) ∧
    ((solveImpl (fun _ => true) 1 (mkGame sortedDeck 3) [] false 0
        ⟨⟨10, []⟩, ⟨10, []⟩, 0, 0, true⟩).1 = none →
      (solve (fun _ => true) 1 (mkGame sortedDeck 3) 10 10).1.moves = [] ∧
      (solve (fun _ => true) 1 (mkGame sortedDeck 3) 10 10).1.status =
        (if (fun _ => true : Nat → Bool) (solveImpl (fun _ => true) 1
            (mkGame sortedDeck 3) [] false 0
            ⟨⟨10, []⟩, ⟨10, []⟩, 0, 0, true⟩).2.2.clock
         then .TIMEOUT else .NO_SOLUTION)) :=
  C9_solve_status (fun _ => true) 1 (mkGame sortedDeck 3) 10 10

/-! ## C4: the dead recycling prune of the array-model `_maybeApplyMove` -/

/-- A state in the recycling case: the waste covers the whole talon, so
the hand portion is empty (`handSize == wasteSize`). -/
def c4Game : Game :=
  { drawSize := 3, foundation := [-1, -1, -1, -1],
    hand := [⟨2, 2⟩, ⟨2, 3⟩, ⟨2, 4⟩], wasteSize := 3,
    tableau := List.replicate 7 ⟨[], []⟩ }

/-- C4: in the array implementation the recycling DRAW is *not* pruned
when `canFlipDeck = false`: because `game.hand()` is the fixed
`std::array<Card, 24>`, `game.hand().empty()` is constant false, so
`_maybeApplyMove` applies the DRAW and recurses (the `_numCalls` counter
increments and the state cache receives the key of the post-DRAW state,
keyed with `canFlipDeck` still false) instead of returning none. -/
theorem C4_recycling_draw_not_pruned :
    c4Game.handSize = c4Game.wasteSize ∧
    (maybeApplyMove (fun _ => false) 1 ⟨.DRAW, -1, -1, -1⟩ c4Game [] false 0
      ⟨⟨10, []⟩, ⟨10, []⟩, 0, 0, true⟩).2.2.numCalls = 1 ∧
    (maybeApplyMove (fun _ => false) 1 ⟨.DRAW, -1, -1, -1⟩ c4Game [] false 0
      ⟨⟨10, []⟩, ⟨10, []⟩, 0, 0, true⟩).2.2.stateCache.entries =
      [(getGameCacheStr (c4Game.apply ⟨.DRAW, -1, -1, -1⟩) false, 1)] := by
  decide

/-! ## C5: the seen-stack set is not exactly restored -/

theorem mem_setInsert [DecidableEq α] {s : List α} {x y : α}
    (h : y ∈ setInsert s x) : y = x ∨ y ∈ s := by
  unfold setInsert at h
  split at h
  · exact Or.inr h
  · simpa using h

theorem mem_setErase [DecidableEq α] {s : List α} {x y : α}
    (h : y ∈ setErase s x) : y ∈ s ∧ y ≠ x := by
  simpa [setErase] using h

theorem mem_foldl_setInsert [DecidableEq α] (l : List α) (s : List α) (y : α)
    (h : y ∈ l.foldl setInsert s) : y ∈ s ∨ y ∈ l := by
  induction l generalizing s with
  | nil => exact Or.inl h
  | cons a t ih =>
    rcases ih (setInsert s a) h with h' | h'
    · rcases mem_setInsert h' with rfl | h''
      · exact Or.inr (by simp)
      · exact Or.inl h''
    · exact Or.inr (by simp [h'])

theorem mem_foldl_setErase [DecidableEq α] (l : List α) (s : List α) (y : α)
    (h : y ∈ l.foldl setErase s) : y ∈ s ∧ y ∉ l := by
  induction l generalizing s with
  | nil => exact ⟨h, by simp⟩
  | cons a t ih =>
    obtain ⟨h1, h2⟩ := ih (setErase s a) h
    obtain ⟨h3, h4⟩ := mem_setErase h1
    exact ⟨h3, by simp [h2, h4]⟩

/-- Erasing the inserted stacks takes the set back inside the entry
set. -/
theorem seen_restore_subset [DecidableEq α] (ns seen s2 : List α)
    (h : s2 ⊆ ns.foldl setInsert seen) : ns.foldl setErase s2 ⊆ seen := by
  intro x hx
  obtain ⟨h1, h2⟩ := mem_foldl_setErase _ _ _ hx
  rcases mem_foldl_setInsert _ _ _ (h h1) with h3 | h3
  · exact h3
  · exact absurd h3 h2

/-- Stack-scoped effect of `_maybeApplyMove` on the seen set, for an
arbitrary continuation that itself only shrinks the set. -/
theorem maybeApplyMoveF_seen_subset
    (recurse : Game → List (List Card) → Bool → Nat → SState →
      Option (List Move) × List (List Card) × SState)
    (hrec : ∀ g s f d st, (recurse g s f d st).2.1 ⊆ s)
    (move : Move) (game : Game) (seen : List (List Card)) (canFlip : Bool)
    (depth : Nat) (st : SState) :
    (maybeApplyMoveF recurse move game seen canFlip depth st).2.1 ⊆ seen := by
  unfold maybeApplyMoveF
  dsimp only
  generalize (if move.type == MoveType.DRAW then
      if game.handArrayEmpty then
        if canFlip then some false else none
      else some canFlip
    else if move.type == MoveType.WASTE_TO_FOUNDATION
        || move.type == MoveType.WASTE_TO_TABLEAU then some true
    else some canFlip) = fo
  rcases fo with _ | c
  · exact fun x hx => hx
  · dsimp only
    split
    · exact fun x hx => hx
    · exact seen_restore_subset _ seen _ (hrec _ _ _ _ _)

/-- `tryMovesF` only shrinks the seen set when each step does. -/
theorem tryMovesF_seen_subset
    (step : Move → List (List Card) → Bool → Nat → SState →
      Option (List Move) × List (List Card) × SState)
    (hstep : ∀ m s f d st, (step m s f d st).2.1 ⊆ s) :
    ∀ (moves : List Move) (seen : List (List Card)) (canFlip : Bool)
      (depth : Nat) (st : SState),
      (tryMovesF step moves seen canFlip depth st).2.1 ⊆ seen := by
  intro moves
  induction moves with
  | nil => intro seen _ _ _ x hx; exact hx
  | cons m rest ih =>
    intro seen canFlip depth st
    unfold tryMovesF
    dsimp only
    split
    · exact hstep m seen canFlip depth st
    · exact fun x hx =>
        hstep m seen canFlip depth st (ih _ canFlip depth _ hx)

/-- `_solveImpl` only shrinks the seen set. -/
theorem solveImpl_seen_subset (timedOut : Nat → Bool) :
    ∀ (fuel : Nat) (g : Game) (seen : List (List Card)) (canFlip : Bool)
      (depth : Nat) (st : SState),
      (solveImpl timedOut fuel g seen canFlip depth st).2.1 ⊆ seen := by
  intro fuel
  induction fuel with
  | zero => intro g seen _ _ _ x hx; exact hx
  | succ n ih =>
    intro g seen canFlip depth st
    unfold solveImpl
    dsimp only
    split
    · exact fun x hx => hx
    · split
      · exact fun x hx => hx
      · split
        · exact fun x hx => hx
        · exact tryMovesF_seen_subset _
            (fun m s f d st' => maybeApplyMoveF_seen_subset _
              (fun g' s' f' d' st'' => ih g' s' f' d' st'') m g s f d st')
            _ seen canFlip depth _

/-- C5 (amended): `_maybeApplyMove` returns the seen-stack set as a
subset of its value at entry — but not necessarily equal to it: a stack
that was already present at entry and is "inserted" again on descent is
erased on unwind, see the counterexample. -/
theorem C5_seen_subset (timedOut : Nat → Bool) (fuel : Nat) (move : Move)
    (game : Game) (seen : List (List Card)) (canFlip : Bool) (depth : Nat)
    (st : SState) :
    (maybeApplyMove timedOut fuel move game seen canFlip depth st).2.1 ⊆ seen :=
  maybeApplyMoveF_seen_subset _
    (fun g' s' f' d' st' => solveImpl_seen_subset timedOut fuel g' s' f' d' st')
    move game seen canFlip depth st

/-- A two-column position: K♠ alone on column 0, Q♥ alone on column 1;
moving Q♥ onto K♠ empties column 1, so the new source stack is the empty
stack. -/
def c5Game : Game :=
  { drawSize := 3, foundation := [-1, -1, -1, -1], hand := [], wasteSize := 0,
    tableau := [⟨[], [⟨0, 12⟩]⟩, ⟨[], [⟨1, 11⟩]⟩] ++ List.replicate 5 ⟨[], []⟩ }

/-- C5, counterexample: called with the empty stack already in
`seenCardStacks`, the tableau-to-tableau move Q♥→K♠ returns (with a won
branch, so the call completed normally), yet the set at return lost the
entry-present empty stack: it is `[]`, not the entry value `[[]]`. -/
theorem C5_counterexample :
    (maybeApplyMove (fun _ => false) 5 ⟨.TABLEAU_TO_TABLEAU, 1, 0, 0⟩ c5Game
      [[]] false 0 ⟨⟨10, []⟩, ⟨10, []⟩, 0, 0, true⟩).1.isSome = true ∧
    (maybeApplyMove (fun _ => false) 5 ⟨.TABLEAU_TO_TABLEAU, 1, 0, 0⟩ c5Game
      [[]] false 0 ⟨⟨10, []⟩, ⟨10, []⟩, 0, 0, true⟩).2.1 ≠ [[]] := by
  decide

/-! ## C7: the cache key's talon section is the hand sequence verbatim -/

/-- A structurally valid card: suit in 0..3, rank in 0..12. -/
def Card.valid (c : Card) : Prop :=
  0 ≤ c.suit ∧ c.suit < 4 ∧ 0 ≤ c.rank ∧ c.rank < 13

instance : DecidablePred Card.valid := by
  intro c; unfold Card.valid; infer_instance

theorem rankChar_ne_sep (r : Int) : rankChar r ≠ SEPARATOR := by
  unfold rankChar
  rcases Nat.lt_or_ge r.toNat 13 with h | h
  · have : ∀ a : Nat, a < 13 → RANK_CHARS.getD a 0 ≠ SEPARATOR := by decide
    exact this _ h
  · rw [List.getD_eq_default]
    · decide
    · simpa [RANK_CHARS] using h

theorem suitChar_ne_sep (s : Int) : suitChar s ≠ SEPARATOR := by
  unfold suitChar
  rcases Nat.lt_or_ge s.toNat 4 with h | h
  · have : ∀ a : Nat, a < 4 → SUIT_CHARS.getD a 0 ≠ SEPARATOR := by decide
    exact this _ h
  · rw [List.getD_eq_default]
    · decide
    · simpa [SUIT_CHARS] using h

theorem rankChar_inj {r1 r2 : Int} (h1 : 0 ≤ r1 ∧ r1 < 13) (h2 : 0 ≤ r2 ∧ r2 < 13)
    (h : rankChar r1 = rankChar r2) : r1 = r2 := by
  obtain ⟨h1a, h1b⟩ := h1
  obtain ⟨h2a, h2b⟩ := h2
  have key : ∀ a b : Fin 13, RANK_CHARS.getD a.val 0 = RANK_CHARS.getD b.val 0 →
      a = b := by decide
  have ha : r1.toNat < 13 := by omega
  have hb : r2.toNat < 13 := by omega
  have hk := key ⟨r1.toNat, ha⟩ ⟨r2.toNat, hb⟩ (by simpa [rankChar] using h)
  have hnat : r1.toNat = r2.toNat := congrArg Fin.val hk
  omega

theorem suitChar_inj {s1 s2 : Int} (h1 : 0 ≤ s1 ∧ s1 < 4) (h2 : 0 ≤ s2 ∧ s2 < 4)
    (h : suitChar s1 = suitChar s2) : s1 = s2 := by
  obtain ⟨h1a, h1b⟩ := h1
  obtain ⟨h2a, h2b⟩ := h2
  have key : ∀ a b : Fin 4, SUIT_CHARS.getD a.val 0 = SUIT_CHARS.getD b.val 0 →
      a = b := by decide
  have ha : s1.toNat < 4 := by omega
  have hb : s2.toNat < 4 := by omega
  have hk := key ⟨s1.toNat, ha⟩ ⟨s2.toNat, hb⟩ (by simpa [suitChar] using h)
  have hnat : s1.toNat = s2.toNat := congrArg Fin.val hk
  omega

/-- Splitting at the first separator byte. -/
theorem eq_of_append_sep :
    ∀ (h1 h2 r1 r2 : List Nat), SEPARATOR ∉ h1 → SEPARATOR ∉ h2 →
      h1 ++ SEPARATOR :: r1 = h2 ++ SEPARATOR :: r2 → h1 = h2 ∧ r1 = r2 := by
  intro h1
  induction h1 with
  | nil =>
    intro h2 r1 r2 _ n2 he
    cases h2 with
    | nil => simpa using he
    | cons b t =>
      exfalso
      simp only [List.nil_append, List.cons_append, List.cons.injEq] at he
      exact n2 (by simp [← he.1])
  | cons a t ih =>
    intro h2 r1 r2 n1 n2 he
    cases h2 with
    | nil =>
      exfalso
      simp only [List.nil_append, List.cons_append, List.cons.injEq] at he
      exact n1 (by simp [he.1])
    | cons b t2 =>
      simp only [List.cons_append, List.cons.injEq] at he
      obtain ⟨rfl, he⟩ := he
      obtain ⟨rfl, hr⟩ := ih t2 r1 r2 (fun h => n1 (by simp [h]))
        (fun h => n2 (by simp [h])) he
      exact ⟨rfl, hr⟩

/-- The 2-byte card encoding is injective on valid cards, sequence-wise. -/
theorem cardBytes_inj :
    ∀ (l1 l2 : List Card), (∀ c ∈ l1, c.valid) → (∀ c ∈ l2, c.valid) →
      (l1.flatMap fun c => [rankChar c.rank, suitChar c.suit]) =
        (l2.flatMap fun c => [rankChar c.rank, suitChar c.suit]) → l1 = l2 := by
  intro l1
  induction l1 with
  | nil =>
    intro l2 _ _ h
    cases l2 with
    | nil => rfl
    | cons d t2 => simp at h
  | cons c t ih =>
    intro l2 hv1 hv2 h
    cases l2 with
    | nil => simp at h
    | cons d t2 =>
      simp only [List.flatMap_cons, List.cons_append, List.nil_append,
        List.cons.injEq] at h
      obtain ⟨hr, hs, ht⟩ := h
      obtain ⟨c1, c2, c3, c4⟩ := hv1 c (by simp)
      obtain ⟨d1, d2, d3, d4⟩ := hv2 d (by simp)
      have hrank := rankChar_inj ⟨c3, c4⟩ ⟨d3, d4⟩ hr
      have hsuit := suitChar_inj ⟨c1, c2⟩ ⟨d1, d2⟩ hs
      have : c = d := by cases c; cases d; simp_all
      subst this
      rw [ih t2 (fun x hx => hv1 x (by simp [hx])) (fun x hx => hv2 x (by simp [hx])) ht]

/-- C7: the canonical form hashed by `_getGameCacheStr` carries the hand
sequence in its current order, each card as a rank-char/suit-char pair,
verbatim: from the canonical bytes of a state one can read back
`canFlipDeck`, `wasteSize` and the exact hand sequence, so two states
whose hand sequences differ — even with the same set of accessible
cards — have different canonical forms.  (That the state-cache key is the
FNV-64 hash of exactly these bytes is `getGameCacheStr`'s definition.) -/
theorem C7_cache_key_talon_verbatim (g1 g2 : Game) (f1 f2 : Bool)
    (hv1 : ∀ c ∈ g1.hand, c.valid) (hv2 : ∀ c ∈ g2.hand, c.valid)
    (heq : getGameCacheBytes g1 f1 = getGameCacheBytes g2 f2) :
    f1 = f2 ∧ g1.wasteSize = g2.wasteSize ∧ g1.hand = g2.hand := by
  unfold getGameCacheBytes at heq
  simp only [List.cons_append, List.nil_append, List.cons.injEq,
    List.append_assoc] at heq
  obtain ⟨hf, hw, ht⟩ := heq
  refine ⟨?_, by omega, ?_⟩
  · cases f1 <;> cases f2 <;> simp_all
  · have n1 : SEPARATOR ∉ g1.hand.flatMap fun c => [rankChar c.rank, suitChar c.suit] := by
      intro hmem
      simp only [List.mem_flatMap, List.mem_cons] at hmem
      obtain ⟨c, _, hc⟩ := hmem
      rcases hc with hc | hc | hc
      · exact rankChar_ne_sep c.rank hc.symm
      · exact suitChar_ne_sep c.suit hc.symm
      · simp at hc
    have n2 : SEPARATOR ∉ g2.hand.flatMap fun c => [rankChar c.rank, suitChar c.suit] := by
      intro hmem
      simp only [List.mem_flatMap, List.mem_cons] at hmem
      obtain ⟨c, _, hc⟩ := hmem
      rcases hc with hc | hc | hc
      · exact rankChar_ne_sep c.rank hc.symm
      · exact suitChar_ne_sep c.suit hc.symm
      · simp at hc
    obtain ⟨hh, _⟩ := eq_of_append_sep _ _ _ _ n1 n2 (by simpa using ht)
    exact cardBytes_inj _ _ hv1 hv2 hh

/-- C7 witness: two fresh games from different permutations of the same
cards (the sorted deck, and the sorted deck with its first two hand cards
swapped) have the same accessible-card *set* for draw size 3 only if …;
concretely we witness the hypotheses with the sorted deck against
itself. -/
theorem C7_cache_key_talon_verbatim_witness :
    (∀ c ∈ (mkGame sortedDeck 3).hand, c.valid) ∧
    getGameCacheBytes (mkGame sortedDeck 3) false =
      getGameCacheBytes (mkGame sortedDeck 3) false ∧
    (false = false ∧ (mkGame sortedDeck 3).wasteSize = (mkGame sortedDeck 3).wasteSize ∧
      (mkGame sortedDeck 3).hand = (mkGame sortedDeck 3).hand) :=
  ⟨by decide, rfl,
   C7_cache_key_talon_verbatim (mkGame sortedDeck 3) (mkGame sortedDeck 3)
     false false (by decide) (by decide) rfl⟩

/-- C5 witness for the amended subset statement. -/
theorem C5_seen_subset_witness :
    (maybeApplyMove (fun _ => false) 5 ⟨.TABLEAU_TO_TABLEAU, 1, 0, 0⟩ c5Game
      [[]] false 0 ⟨⟨10, []⟩, ⟨10, []⟩, 0, 0, true⟩).2.1 ⊆ [[]] :=
  C5_seen_subset (fun _ => false) 5 ⟨.TABLEAU_TO_TABLEAU, 1, 0, 0⟩ c5Game
    [[]] false 0 ⟨⟨10, []⟩, ⟨10, []⟩, 0, 0, true⟩

end Solitaire

/-! ## C10: refinement between the array and vector game models -/

namespace Solitaire

def toVector (g : Game) : GameV :=
  { drawSize := g.drawSize, foundation := g.foundation,
    hand := g.hand.take (g.handSize - g.wasteSize),
    waste := (g.hand.drop (g.handSize - g.wasteSize)).reverse,
    tableau := g.tableau }

def moveAbs (m : Move) : MoveV :=
  { type := m.type,
    extras :=
      match m.type with
      | .DRAW => []
      | .WASTE_TO_FOUNDATION => []
      | .WASTE_TO_TABLEAU => [m.e0.toNat]
      | .TABLEAU_TO_FOUNDATION => [m.e0.toNat]
      | .TABLEAU_TO_TABLEAU => [m.e0.toNat, m.e1.toNat, m.e2.toNat] }

def Move.wf (m : Move) : Prop :=
  match m.type with
  | .DRAW => True
  | .WASTE_TO_FOUNDATION => True
  | .WASTE_TO_TABLEAU => 0 ≤ m.e0
  | .TABLEAU_TO_FOUNDATION => 0 ≤ m.e0
  | .TABLEAU_TO_TABLEAU => 0 ≤ m.e0 ∧ 0 ≤ m.e1 ∧ 0 ≤ m.e2

theorem take_getLastD (deck : List Card) (n : Nat) (h1 : 1 ≤ n) (h2 : n ≤ deck.length) :
    (deck.take n).getLastD default = deck.getD (n - 1) default := by
  rw [List.getLastD_eq_getLast?, List.getLast?_eq_getElem?]
  have hl : (deck.take n).length = n := by simp [List.length_take]; omega
  rw [hl]
  have : (deck.take n)[n - 1]? = deck[n - 1]? := by
    rw [List.getElem?_take]
    simp
    omega
  rw [this, List.getD_eq_getElem?_getD]

theorem deal_fold_rel (deck : List Card) :
    ∀ (pairs : List (Nat × Nat)) (n : Nat) (tab : List TableauColumn),
      pairs.length ≤ n → n ≤ deck.length →
      pairs.foldl dealStepV (deck.take n, tab) =
        (deck.take (n - pairs.length),
         (pairs.foldl (dealStep deck) (n, tab)).2) ∧
      (pairs.foldl (dealStep deck) (n, tab)).1 = n - pairs.length := by
  intro pairs
  induction pairs with
  | nil => intro n tab _ _; exact ⟨rfl, rfl⟩
  | cons p rest ih =>
    intro n tab hlen hn
    have hn1 : 1 ≤ n := le_trans (by simp) hlen
    have hdl : (deck.take n).dropLast = deck.take (n - 1) := by
      rw [List.dropLast_eq_take, List.take_take]
      congr 1
      rw [List.length_take]
      omega
    have hgl : (deck.take n).getLastD default = deck.getD (n - 1) default :=
      take_getLastD deck n hn1 hn
    have hstep : dealStepV (deck.take n, tab) p =
        (deck.take (n - 1), (dealStep deck (n, tab) p).2) := by
      unfold dealStepV dealStep
      simp only [hdl, hgl]
    have hpair : dealStep deck (n, tab) p = (n - 1, (dealStep deck (n, tab) p).2) := rfl
    have hlen' : rest.length ≤ n - 1 := by simp at hlen; omega
    obtain ⟨ih1, ih2⟩ := ih (n - 1) (dealStep deck (n, tab) p).2 hlen' (by omega)
    constructor
    · rw [List.foldl_cons, hstep, ih1, List.foldl_cons, ← hpair]
      congr 2
      simp only [List.length_cons]
      omega
    · rw [List.foldl_cons, hpair, ih2]
      simp only [List.length_cons]
      omega

/-- Construction conjunct of the refinement. -/
theorem toVector_mkGame (deck : List Card) (ds : Nat) (h52 : deck.length = 52) :
    toVector (mkGame deck ds) = mkGameV deck ds := by
  obtain ⟨h1, h2⟩ := deal_fold_rel deck dealPairs deck.length
    (List.replicate TABLEAU_SIZE { faceDown := [], faceUp := [] })
    (by rw [h52]; decide) le_rfl
  have hdp : dealPairs.length = 28 := by decide
  unfold toVector mkGame mkGameV
  dsimp only
  rw [List.take_length] at h1
  rw [h1]
  simp only [Game.handSize, hdp, h52]
  congr 1 <;> simp [List.take_take, MAX_HAND_SIZE]

end Solitaire

namespace Solitaire

theorem getLastD_eq_getD (l : List Card) :
    l.getLastD default = l.getD (l.length - 1) default := by
  cases l with
  | nil => rfl
  | cons a t =>
    rw [List.getLastD_eq_getLast?, List.getLast?_eq_getElem?, List.getD_eq_getElem?_getD]

theorem toVector_wasteTop (g : Game) :
    (toVector g).waste.getLastD default = g.wasteTop := by
  unfold toVector Game.wasteTop
  dsimp only
  rw [List.getLastD_eq_getLast?, List.getLast?_reverse, List.head?_drop,
    List.getD_eq_getElem?_getD]

theorem toVector_waste_isEmpty (g : Game) (hws : g.wasteSize ≤ g.handSize) :
    (toVector g).waste.isEmpty = (g.wasteSize == 0) := by
  unfold toVector Game.handSize at *
  dsimp only
  rw [Bool.eq_iff_iff]
  simp only [List.isEmpty_iff, List.reverse_eq_nil_iff, beq_iff_eq]
  constructor
  · intro h
    have := congrArg List.length h
    simp [List.length_drop] at this
    omega
  · intro h
    simp [h, List.drop_length]

theorem toVector_hand_isEmpty (g : Game) :
    (toVector g).hand.isEmpty = (g.handSize - g.wasteSize == 0) := by
  unfold toVector Game.handSize at *
  dsimp only
  rw [Bool.eq_iff_iff]
  simp only [List.isEmpty_iff, beq_iff_eq]
  constructor
  · intro h
    have := congrArg List.length h
    simp [List.length_take] at this
    omega
  · intro h
    simp [h]

theorem toVector_isWon (g : Game) (hws : g.wasteSize ≤ g.handSize) :
    (toVector g).isWon = g.isWon := by
  unfold GameV.isWon Game.isWon
  rw [toVector_hand_isEmpty, toVector_waste_isEmpty g hws]
  rw [show (toVector g).tableau = g.tableau from rfl]
  congr 1
  · unfold Game.handSize at *
    by_cases hw : g.wasteSize = 0 <;> by_cases hl : g.hand.length = 0 <;>
      rw [Bool.eq_iff_iff] <;> simp [hw, hl] <;> omega
  · refine congrArg (List.all g.tableau) ?_
    funext c
    rw [Bool.eq_iff_iff]
    simp [List.isEmpty_iff, List.length_eq_zero]

end Solitaire

namespace Solitaire

theorem toVector_found (g : Game) : (toVector g).found = g.found := rfl

theorem toVector_col (g : Game) : (toVector g).colV = g.col := rfl

theorem toVector_isValid_DRAW (g : Game) (hws : g.wasteSize ≤ g.handSize) :
    (toVector g).isValid (moveAbs ⟨.DRAW, -1, -1, -1⟩) =
      g.isValid ⟨.DRAW, -1, -1, -1⟩ := by
  show (toVector g).isValid ⟨.DRAW, []⟩ = _
  unfold GameV.isValid Game.isValid
  simp only [List.isEmpty_nil, Bool.not_false, if_false, Bool.not_true]
  rw [Bool.eq_iff_iff]
  have h1 := toVector_hand_isEmpty g
  have h2 := toVector_waste_isEmpty g hws
  unfold Game.handSize at *
  simp only [h1, h2, Bool.false_eq_true, if_false, Bool.not_eq_true',
    Bool.and_eq_true, beq_iff_eq, Bool.not_eq_false, Bool.and_eq_false_iff,
    beq_eq_false_iff_ne, ne_eq]
  omega

end Solitaire

namespace Solitaire

theorem int_ge_iff_toNat {e : Int} {n : Nat} (h : 0 ≤ e) :
    (e ≥ (n : Int)) = (e.toNat ≥ n) := by
  rw [eq_iff_iff, ge_iff_le, ge_iff_le, Int.le_toNat h]

theorem isEmpty_eq_length_beq (l : List Card) : l.isEmpty = (l.length == 0) := by
  cases l <;> rfl

theorem toVector_isValid_W2F (g : Game) (hws : g.wasteSize ≤ g.handSize) :
    (toVector g).isValid (moveAbs ⟨.WASTE_TO_FOUNDATION, -1, -1, -1⟩) =
      g.isValid ⟨.WASTE_TO_FOUNDATION, -1, -1, -1⟩ := by
  show (toVector g).isValid ⟨.WASTE_TO_FOUNDATION, []⟩ = _
  unfold GameV.isValid Game.isValid
  simp only [List.isEmpty_nil, Bool.not_false, Bool.false_eq_true, if_false]
  rw [toVector_waste_isEmpty g hws]
  by_cases hw : g.wasteSize = 0
  · simp [hw]
  · have hne : (g.wasteSize == 0) = false := by simp [hw]
    rw [hne]
    simp only [Bool.false_eq_true, if_false]
    rw [toVector_wasteTop]
    rfl

theorem toVector_isValid_T2F (g : Game) (e0 : Int) (he0 : 0 ≤ e0) :
    (toVector g).isValid (moveAbs ⟨.TABLEAU_TO_FOUNDATION, e0, -1, -1⟩) =
      g.isValid ⟨.TABLEAU_TO_FOUNDATION, e0, -1, -1⟩ := by
  show (toVector g).isValid ⟨.TABLEAU_TO_FOUNDATION, [e0.toNat]⟩ = _
  unfold GameV.isValid Game.isValid
  simp only [List.getD_cons_zero, List.length_cons, List.length_nil,
    toVector_col, show (toVector g).tableau = g.tableau from rfl,
    show (toVector g).found = g.found from rfl, getLastD_eq_getD]
  have hc : (decide (e0.toNat ≥ g.tableau.length) || (g.col e0.toNat).faceUp.isEmpty)
      = (decide (e0 < 0) || decide (e0 ≥ (g.tableau.length : Int))
         || ((g.col e0.toNat).faceUp.length == 0)) := by
    rw [Bool.eq_iff_iff]
    simp only [Bool.or_eq_true, decide_eq_true_eq, List.isEmpty_iff, beq_iff_eq,
      List.length_eq_zero]
    by_cases hP : (g.col e0.toNat).faceUp = [] <;> simp [hP] <;> omega
  rw [hc]
  rfl

theorem toVector_isValid_W2T (g : Game) (e0 : Int) (he0 : 0 ≤ e0)
    (hws : g.wasteSize ≤ g.handSize) :
    (toVector g).isValid (moveAbs ⟨.WASTE_TO_TABLEAU, e0, -1, -1⟩) =
      g.isValid ⟨.WASTE_TO_TABLEAU, e0, -1, -1⟩ := by
  show (toVector g).isValid ⟨.WASTE_TO_TABLEAU, [e0.toNat]⟩ = _
  unfold GameV.isValid Game.isValid
  simp only [List.getD_cons_zero, List.length_cons, List.length_nil,
    toVector_col, show (toVector g).tableau = g.tableau from rfl,
    toVector_wasteTop]
  simp only [getLastD_eq_getD, isEmpty_eq_length_beq]
  have hc : (((toVector g).waste.length == 0) || decide (e0.toNat ≥ g.tableau.length))
      = (g.wasteSize == 0 || decide (e0 < 0)
         || decide (e0 ≥ (g.tableau.length : Int))) := by
    have hlen : (toVector g).waste.length = g.wasteSize := by
      unfold toVector Game.handSize at *
      simp only [List.length_reverse, List.length_drop]
      omega
    rw [hlen, Bool.eq_iff_iff]
    simp only [Bool.or_eq_true, decide_eq_true_eq, beq_iff_eq]
    omega
  rw [hc]
  rfl

theorem toVector_isValid_T2T (g : Game) (e0 e1 e2 : Int) (he0 : 0 ≤ e0)
    (he1 : 0 ≤ e1) (he2 : 0 ≤ e2) :
    (toVector g).isValid (moveAbs ⟨.TABLEAU_TO_TABLEAU, e0, e1, e2⟩) =
      g.isValid ⟨.TABLEAU_TO_TABLEAU, e0, e1, e2⟩ := by
  show (toVector g).isValid ⟨.TABLEAU_TO_TABLEAU, [e0.toNat, e1.toNat, e2.toNat]⟩ = _
  unfold GameV.isValid Game.isValid
  simp only [List.getD_cons_zero, List.getD_cons_succ, List.length_cons,
    List.length_nil, toVector_col, show (toVector g).tableau = g.tableau from rfl,
    getLastD_eq_getD, isEmpty_eq_length_beq]
  have hc : (decide (e0.toNat ≥ g.tableau.length)
        || decide (e2.toNat ≥ g.tableau.length)
        || decide (e1.toNat ≥ (g.col e0.toNat).faceUp.length))
      = (decide (e0 < 0) || decide (e0 ≥ (g.tableau.length : Int))
         || decide (e2 < 0) || decide (e2 ≥ (g.tableau.length : Int))
         || decide (e1 < 0)
         || decide (e1 ≥ ((g.col e0.toNat).faceUp.length : Int))) := by
    rw [Bool.eq_iff_iff]
    simp only [Bool.or_eq_true, decide_eq_true_eq]
    omega
  rw [hc]
  rfl

end Solitaire

namespace Solitaire

theorem toVector_apply_T2T (g : Game) (e0 e1 e2 : Int) :
    toVector (g.apply ⟨.TABLEAU_TO_TABLEAU, e0, e1, e2⟩) =
      (toVector g).apply (moveAbs ⟨.TABLEAU_TO_TABLEAU, e0, e1, e2⟩) := rfl

theorem toVector_apply_T2F (g : Game) (e0 : Int) :
    toVector (g.apply ⟨.TABLEAU_TO_FOUNDATION, e0, -1, -1⟩) =
      (toVector g).apply (moveAbs ⟨.TABLEAU_TO_FOUNDATION, e0, -1, -1⟩) := by
  show _ = (toVector g).apply ⟨.TABLEAU_TO_FOUNDATION, [e0.toNat]⟩
  unfold Game.apply GameV.apply
  simp only [List.getD_cons_zero, toVector_col, getLastD_eq_getD]
  rfl

end Solitaire

namespace Solitaire

theorem getLastD_reverse_drop (l : List Card) (k : Nat) :
    ((l.drop k).reverse).getLastD default = l.getD k default := by
  rw [List.getLastD_eq_getLast?, List.getLast?_reverse, List.head?_drop,
    List.getD_eq_getElem?_getD]

theorem reverse_drop_succ (l : List Card) (k : Nat) :
    (l.drop (k + 1)).reverse = ((l.drop k).reverse).dropLast := by
  rw [← List.tail_drop]
  generalize l.drop k = x
  cases x with
  | nil => rfl
  | cons a t => simp

theorem take_eraseIdx_self (l : List Card) (k : Nat) (hk : k < l.length) :
    (l.eraseIdx k).take k = l.take k := by
  rw [List.eraseIdx_eq_take_drop_succ]
  rw [List.take_left']
  rw [List.length_take]
  omega

theorem drop_eraseIdx_self (l : List Card) (k : Nat) (hk : k < l.length) :
    (l.eraseIdx k).drop k = l.drop (k + 1) := by
  rw [List.eraseIdx_eq_take_drop_succ]
  rw [List.drop_left']
  rw [List.length_take]
  omega

theorem toVector_apply_W2F (g : Game) (hws : g.wasteSize ≤ g.handSize)
    (hpos : 0 < g.wasteSize) :
    toVector (g.apply ⟨.WASTE_TO_FOUNDATION, -1, -1, -1⟩) =
      (toVector g).apply (moveAbs ⟨.WASTE_TO_FOUNDATION, -1, -1, -1⟩) := by
  show _ = (toVector g).apply ⟨.WASTE_TO_FOUNDATION, []⟩
  have hidx : g.handSize - g.wasteSize < g.hand.length := by
    unfold Game.handSize at *
    omega
  have hlen : (g.hand.eraseIdx (g.handSize - g.wasteSize)).length =
      g.hand.length - 1 := by
    rw [List.length_eraseIdx]
    simp [hidx]
  unfold Game.apply GameV.apply toVector Game.wasteTop Game.handSize at *
  dsimp only
  congr 1
  · rw [getLastD_reverse_drop]
  · rw [hlen]
    have harith : g.hand.length - 1 - (g.wasteSize - 1) =
        g.hand.length - g.wasteSize := by omega
    rw [harith, take_eraseIdx_self _ _ hidx]
  · rw [hlen]
    have harith : g.hand.length - 1 - (g.wasteSize - 1) =
        g.hand.length - g.wasteSize := by omega
    rw [harith, drop_eraseIdx_self _ _ hidx, reverse_drop_succ]

theorem toVector_apply_W2T (g : Game) (e0 : Int) (hws : g.wasteSize ≤ g.handSize)
    (hpos : 0 < g.wasteSize) :
    toVector (g.apply ⟨.WASTE_TO_TABLEAU, e0, -1, -1⟩) =
      (toVector g).apply (moveAbs ⟨.WASTE_TO_TABLEAU, e0, -1, -1⟩) := by
  show _ = (toVector g).apply ⟨.WASTE_TO_TABLEAU, [e0.toNat]⟩
  have hidx : g.handSize - g.wasteSize < g.hand.length := by
    unfold Game.handSize at *
    omega
  have hlen : (g.hand.eraseIdx (g.handSize - g.wasteSize)).length =
      g.hand.length - 1 := by
    rw [List.length_eraseIdx]
    simp [hidx]
  unfold Game.apply GameV.apply toVector Game.wasteTop Game.handSize at *
  dsimp only
  simp only [List.getD_cons_zero]
  congr 1
  · rw [hlen]
    have harith : g.hand.length - 1 - (g.wasteSize - 1) =
        g.hand.length - g.wasteSize := by omega
    rw [harith, take_eraseIdx_self _ _ hidx]
  · rw [hlen]
    have harith : g.hand.length - 1 - (g.wasteSize - 1) =
        g.hand.length - g.wasteSize := by omega
    rw [harith, drop_eraseIdx_self _ _ hidx, reverse_drop_succ]
  · rw [getLastD_reverse_drop]
    rfl

end Solitaire

namespace Solitaire

/-- Closed form of the `drawCards` loop: it moves the last
`min n hand.length` cards of the hand, in order from the back, onto the
end of the waste. -/
theorem drawCards_eq (n : Nat) (hand waste : List Card) :
    drawCards n hand waste =
      (hand.take (hand.length - min n hand.length),
       waste ++ (hand.drop (hand.length - min n hand.length)).reverse) := by
  induction n generalizing hand waste with
  | zero => simp [drawCards]
  | succ n ih =>
    unfold drawCards
    by_cases hh : hand.isEmpty
    · rw [if_pos hh]
      cases hand with
      | nil => simp
      | cons a t => simp at hh
    · rw [if_neg hh, ih]
      have hne : hand ≠ [] := by cases hand <;> simp_all
      have hlen : 0 < hand.length := List.length_pos.mpr hne
      have hdl : hand.dropLast.length = hand.length - 1 := List.length_dropLast hand
      have hj : hand.dropLast.length - min n hand.dropLast.length =
          hand.length - min (n + 1) hand.length := by rw [hdl]; omega
      have hjle : hand.length - min (n + 1) hand.length ≤ hand.length - 1 := by
        omega
      simp only [Prod.mk.injEq]
      refine ⟨?_, ?_⟩
      · rw [hj, List.dropLast_eq_take, List.take_take]
        congr 1
        omega
      · rw [hj]
        have hlast : hand.getLastD default = hand.getLast hne := by
          rw [List.getLastD_eq_getLast?, List.getLast?_eq_getLast _ hne]
          rfl
        have key : ∀ (l : List Card) (h : l ≠ []) (j : Nat),
            j ≤ l.length - 1 → l.drop j = l.dropLast.drop j ++ [l.getLast h] := by
          intro l h j hjl
          conv_lhs => rw [← List.dropLast_append_getLast h]
          rw [List.drop_append_of_le_length]
          rw [List.length_dropLast]
          omega
        rw [key hand hne _ hjle, hlast, List.reverse_append]
        simp [List.append_assoc]

end Solitaire

namespace Solitaire

theorem toVector_apply_DRAW (g : Game) (hws : g.wasteSize ≤ g.handSize) :
    toVector (g.apply ⟨.DRAW, -1, -1, -1⟩) =
      (toVector g).apply (moveAbs ⟨.DRAW, -1, -1, -1⟩) := by
  show _ = (toVector g).apply ⟨.DRAW, []⟩
  unfold Game.apply GameV.apply toVector Game.handSize at *
  dsimp only
  by_cases hWL : g.wasteSize = g.hand.length
  · have hcond : (g.wasteSize == g.hand.length) = true := by
      simp [hWL]
    have hdrop0 : g.hand.length - g.wasteSize = 0 := by omega
    rw [if_pos hcond, hdrop0]
    simp only [List.take_zero, List.drop_zero, List.isEmpty_nil, if_true,
      List.reverse_reverse]
    rw [drawCards_eq]
    simp
  · have hcond : ¬ (g.wasteSize == g.hand.length) = true := by
      simp [hWL]
    have hWlt : g.wasteSize < g.hand.length := by omega
    have hne : ¬ (g.hand.take (g.hand.length - g.wasteSize)).isEmpty = true := by
      rw [List.isEmpty_iff, ← List.length_eq_zero, List.length_take]
      omega
    rw [if_neg hcond, if_neg hne, drawCards_eq]
    have hlenv : (g.hand.take (g.hand.length - g.wasteSize)).length =
        g.hand.length - g.wasteSize := by
      rw [List.length_take]
      omega
    rw [hlenv]
    have hj : g.hand.length - g.wasteSize -
        min g.drawSize (g.hand.length - g.wasteSize) =
        g.hand.length - min (g.wasteSize + g.drawSize) g.hand.length := by
      omega
    rw [hj]
    have hjle : g.hand.length - min (g.wasteSize + g.drawSize) g.hand.length ≤
        g.hand.length - g.wasteSize := by omega
    congr 1
    · rw [List.take_take]
      congr 1
      omega
    · rw [List.drop_take]
      have hx : g.hand.drop (g.hand.length - g.wasteSize) =
          (g.hand.drop
              (g.hand.length - min (g.wasteSize + g.drawSize) g.hand.length)).drop
            (g.hand.length - g.wasteSize -
              (g.hand.length - min (g.wasteSize + g.drawSize) g.hand.length)) := by
        rw [List.drop_drop]
        congr 1
        omega
      rw [hx, ← List.reverse_append]
      congr 1
      rw [List.take_append_drop]

end Solitaire

namespace Solitaire

/-- C10: the vector-based game model refines the fixed-array game model.
Under the representation map `toVector` (hand = first `handSize - wasteSize`
cards of the talon array, waste = last `wasteSize` cards reversed),
construction from the same 52-card deck and draw size yields related
states, `isValid` and `isWon` agree on related states for every
well-formed move, and `apply` of the same valid move commutes with the
representation map. -/
theorem C10_refinement (deck : List Card) (ds : Nat) (g : Game) (m : Move)
    (h52 : deck.length = 52) (hws : g.wasteSize ≤ g.handSize) (hwf : m.wf) :
    toVector (mkGame deck ds) = mkGameV deck ds ∧
    (toVector g).isValid (moveAbs m) = g.isValid m ∧
    (toVector g).isWon = g.isWon ∧
    (g.isValid m = true →
      toVector (g.apply m) = (toVector g).apply (moveAbs m)) := by
  refine ⟨toVector_mkGame deck ds h52, ?_, toVector_isWon g hws, ?_⟩
  · obtain ⟨t, e0, e1, e2⟩ := m
    cases t with
    | DRAW => exact toVector_isValid_DRAW g hws
    | WASTE_TO_FOUNDATION => exact toVector_isValid_W2F g hws
    | WASTE_TO_TABLEAU => exact toVector_isValid_W2T g e0 hwf hws
    | TABLEAU_TO_FOUNDATION => exact toVector_isValid_T2F g e0 hwf
    | TABLEAU_TO_TABLEAU =>
      exact toVector_isValid_T2T g e0 e1 e2 hwf.1 hwf.2.1 hwf.2.2
  · intro hv
    obtain ⟨t, e0, e1, e2⟩ := m
    cases t with
    | DRAW => exact toVector_apply_DRAW g hws
    | WASTE_TO_FOUNDATION =>
      have hpos : 0 < g.wasteSize := by
        by_contra hc
        have hz : g.wasteSize = 0 := by omega
        unfold Game.isValid at hv
        simp [hz] at hv
      exact toVector_apply_W2F g hws hpos
    | WASTE_TO_TABLEAU =>
      have hpos : 0 < g.wasteSize := by
        by_contra hc
        have hz : g.wasteSize = 0 := by omega
        unfold Game.isValid at hv
        simp [hz] at hv
      exact toVector_apply_W2T g e0 hws hpos
    | TABLEAU_TO_FOUNDATION => exact toVector_apply_T2F g e0
    | TABLEAU_TO_TABLEAU => exact toVector_apply_T2T g e0 e1 e2

/-- Witness for C10 on the sorted deck with draw size 3 and a DRAW move. -/
theorem C10_refinement_witness :
    sortedDeck.length = 52 ∧
    (mkGame sortedDeck 3).wasteSize ≤ (mkGame sortedDeck 3).handSize ∧
    Move.wf ⟨.DRAW, -1, -1, -1⟩ ∧
    (toVector (mkGame sortedDeck 3) = mkGameV sortedDeck 3 ∧
     (toVector (mkGame sortedDeck 3)).isValid (moveAbs ⟨.DRAW, -1, -1, -1⟩) =
       (mkGame sortedDeck 3).isValid ⟨.DRAW, -1, -1, -1⟩ ∧
     (toVector (mkGame sortedDeck 3)).isWon = (mkGame sortedDeck 3).isWon ∧
     ((mkGame sortedDeck 3).isValid ⟨.DRAW, -1, -1, -1⟩ = true →
       toVector ((mkGame sortedDeck 3).apply ⟨.DRAW, -1, -1, -1⟩) =
         (toVector (mkGame sortedDeck 3)).apply (moveAbs ⟨.DRAW, -1, -1, -1⟩))) :=
  ⟨by decide, by decide, trivial,
   C10_refinement sortedDeck 3 (mkGame sortedDeck 3) ⟨.DRAW, -1, -1, -1⟩
     (by decide) (by decide) trivial⟩

end Solitaire

/-! ## C1: the replay property of SOLVED results -/

namespace Solitaire

/-- All cards of a tableau column. -/
def colCards (c : TableauColumn) : List Card := c.faceDown ++ c.faceUp

/-- All cards on the tableau. -/
def tabCards (tab : List TableauColumn) : List Card := tab.flatMap colCards

/-- The cards on the board outside the foundation (talon plus tableau). -/
def presentCards (g : Game) : List Card := g.hand ++ tabCards g.tableau

/-- The state invariant of the search: waste within talon, all board cards
structurally valid and pairwise distinct, foundation entries at least `-1`,
and no suit both has a nonempty foundation pile and its ace on the board. -/
def Inv (g : Game) : Prop :=
  g.wasteSize ≤ g.handSize ∧
  (∀ c ∈ presentCards g, c.valid) ∧
  (presentCards g).Nodup ∧
  (∀ s : Int, -1 ≤ g.found s) ∧
  (∀ s : Int, 0 ≤ s → 0 ≤ g.found s → (⟨s, 0⟩ : Card) ∉ presentCards g)

theorem dropLast_append_getLastD (l : List Card) (h : l ≠ []) :
    l.dropLast ++ [l.getLastD default] = l := by
  have h1 : l.getLastD default = l.getLast h := by
    rw [List.getLastD_eq_getLast?, List.getLast?_eq_getLast _ h]
    rfl
  rw [h1, List.dropLast_append_getLast]

theorem colCards_expose (c : TableauColumn) :
    ((colCards (exposeColumn c) : List Card) : Multiset Card) =
      (colCards c : Multiset Card) := by
  unfold exposeColumn colCards
  split
  · rename_i h
    simp only [Bool.and_eq_true, beq_iff_eq, Bool.not_eq_true', beq_eq_false_iff_ne,
      ne_eq] at h
    obtain ⟨h1, h2⟩ := h
    have hfu : c.faceUp = [] := List.length_eq_zero.mp h1
    have hfd : c.faceDown ≠ [] := by
      intro hh
      rw [hh] at h2
      exact h2 rfl
    rw [hfu, List.nil_append, List.append_nil, dropLast_append_getLastD _ hfd]
  · rfl

theorem tabCards_cons (c : TableauColumn) (t : List TableauColumn) :
    tabCards (c :: t) = colCards c ++ tabCards t := rfl

theorem tabCards_map_expose (tab : List TableauColumn) :
    ((tabCards (tab.map exposeColumn) : List Card) : Multiset Card) =
      (tabCards tab : Multiset Card) := by
  induction tab with
  | nil => rfl
  | cons h t ih =>
    rw [List.map_cons, tabCards_cons, tabCards_cons, ← Multiset.coe_add,
      ← Multiset.coe_add, colCards_expose, ih]

theorem tabCards_set (tab : List TableauColumn) (i : Nat) (v : TableauColumn)
    (hi : i < tab.length) :
    ((tabCards (tab.set i v) : List Card) : Multiset Card)
        + (colCards (tab.getD i default) : Multiset Card) =
      (tabCards tab : Multiset Card) + (colCards v : Multiset Card) := by
  induction tab generalizing i with
  | nil => simp at hi
  | cons h t ih =>
    cases i with
    | zero =>
      rw [show (h :: t).set 0 v = v :: t from rfl,
        show (h :: t).getD 0 default = h from rfl, tabCards_cons, tabCards_cons,
        ← Multiset.coe_add, ← Multiset.coe_add]
      abel
    | succ i =>
      have hi' : i < t.length := by simpa using hi
      rw [show (h :: t).set (i + 1) v = h :: t.set i v from rfl,
        show (h :: t).getD (i + 1) default = t.getD i default from rfl,
        tabCards_cons, tabCards_cons, ← Multiset.coe_add, ← Multiset.coe_add,
        add_assoc, ih i hi', ← add_assoc]

theorem coe_eraseIdx (l : List Card) (i : Nat) (hi : i < l.length) :
    ((l.eraseIdx i : List Card) : Multiset Card) + {l.getD i default} =
      (l : Multiset Card) := by
  rw [List.eraseIdx_eq_take_drop_succ]
  conv_rhs => rw [← List.take_append_drop i l]
  rw [List.drop_eq_getElem_cons hi, List.getD_eq_getElem l default hi]
  rw [← Multiset.coe_add, ← Multiset.coe_add, ← Multiset.cons_coe,
    ← Multiset.singleton_add]
  abel

theorem coe_dropLast (l : List Card) (h : l ≠ []) :
    ((l.dropLast : List Card) : Multiset Card) + {l.getLastD default} =
      (l : Multiset Card) := by
  conv_rhs => rw [← dropLast_append_getLastD l h]
  rw [← Multiset.coe_add]
  simp

theorem getD_mem {α : Type} [Inhabited α] (l : List α) (i : Nat) (hi : i < l.length) :
    l.getD i default ∈ l := by
  rw [List.getD_eq_getElem l default hi]
  exact List.getElem_mem hi

end Solitaire

namespace Solitaire

theorem present_coe (g : Game) :
    ((presentCards g : List Card) : Multiset Card) =
      (g.hand : Multiset Card) + (tabCards g.tableau : Multiset Card) := by
  unfold presentCards
  rw [← Multiset.coe_add]

theorem getD_set_ne_col (tab : List TableauColumn) (i j : Nat) (v : TableauColumn)
    (h : i ≠ j) : (tab.set i v).getD j default = tab.getD j default := by
  rw [List.getD_eq_getElem?_getD, List.getD_eq_getElem?_getD, List.getElem?_set_ne h]

theorem isValid_W2F_elim (g : Game) (e0 e1 e2 : Int)
    (hv : g.isValid ⟨.WASTE_TO_FOUNDATION, e0, e1, e2⟩ = true) :
    g.wasteSize ≠ 0 ∧ g.wasteTop.rank = g.found g.wasteTop.suit + 1 := by
  unfold Game.isValid at hv
  by_cases hw : g.wasteSize = 0
  · simp [hw] at hv
  · have hc : (g.wasteSize == 0) = false := by simp [hw]
    rw [hc] at hv
    simp at hv
    exact ⟨hw, hv⟩

theorem isValid_T2F_elim (g : Game) (e0 e1 e2 : Int)
    (hv : g.isValid ⟨.TABLEAU_TO_FOUNDATION, e0, e1, e2⟩ = true) :
    0 ≤ e0 ∧ e0.toNat < g.tableau.length ∧ (g.col e0.toNat).faceUp ≠ [] ∧
      ((g.col e0.toNat).faceUp.getD ((g.col e0.toNat).faceUp.length - 1) default).rank =
        g.found ((g.col e0.toNat).faceUp.getD ((g.col e0.toNat).faceUp.length - 1)
          default).suit + 1 := by
  unfold Game.isValid at hv
  dsimp only at hv
  split at hv
  · exact absurd hv (by simp)
  · rename_i hcond
    simp only [Bool.or_eq_true, decide_eq_true_eq, beq_iff_eq, not_or] at hcond
    obtain ⟨⟨h1, h2⟩, h3⟩ := hcond
    simp only [Bool.not_eq_true', bne_eq_false_iff_eq, ne_eq, not_not] at hv
    refine ⟨by omega, by omega, ?_, hv⟩
    intro hh
    exact h3 (by rw [hh]; rfl)

theorem isValid_W2T_elim (g : Game) (e0 e1 e2 : Int)
    (hv : g.isValid ⟨.WASTE_TO_TABLEAU, e0, e1, e2⟩ = true) :
    g.wasteSize ≠ 0 ∧ 0 ≤ e0 ∧ e0.toNat < g.tableau.length := by
  unfold Game.isValid at hv
  dsimp only at hv
  split at hv
  · exact absurd hv (by simp)
  · rename_i hcond
    simp only [Bool.or_eq_true, decide_eq_true_eq, beq_iff_eq, not_or] at hcond
    obtain ⟨⟨h1, h2⟩, h3⟩ := hcond
    exact ⟨h1, by omega, by omega⟩

theorem isValid_T2T_elim (g : Game) (e0 e1 e2 : Int)
    (hv : g.isValid ⟨.TABLEAU_TO_TABLEAU, e0, e1, e2⟩ = true) :
    0 ≤ e0 ∧ e0.toNat < g.tableau.length ∧ 0 ≤ e2 ∧ e2.toNat < g.tableau.length ∧
      0 ≤ e1 ∧ e1.toNat < (g.col e0.toNat).faceUp.length := by
  unfold Game.isValid at hv
  dsimp only at hv
  split at hv
  · exact absurd hv (by simp)
  · rename_i hcond
    simp only [Bool.or_eq_true, decide_eq_true_eq, beq_iff_eq, not_or] at hcond
    obtain ⟨⟨⟨⟨⟨h1, h2⟩, h3⟩, h4⟩, h5⟩, h6⟩ := hcond
    refine ⟨by omega, by omega, by omega, by omega, by omega, by omega⟩

theorem present_DRAW (g : Game) (e0 e1 e2 : Int) :
    ((presentCards (g.apply ⟨.DRAW, e0, e1, e2⟩) : List Card) : Multiset Card) =
      (presentCards g : Multiset Card) := by
  unfold Game.apply
  dsimp only
  rw [present_coe, present_coe]
  rw [tabCards_map_expose]

end Solitaire


namespace Solitaire

theorem coe_take_drop (l : List Card) (i : Nat) :
    ((l.take i : List Card) : Multiset Card) + ((l.drop i : List Card) : Multiset Card) =
      (l : Multiset Card) := by
  rw [Multiset.coe_add, List.take_append_drop]

theorem tabCards_set_out (tab : List TableauColumn) (i : Nat) (v : TableauColumn)
    (hi : i < tab.length) (x : Multiset Card)
    (hcol : (colCards v : Multiset Card) + x =
      ((colCards (tab.getD i default) : List Card) : Multiset Card)) :
    ((tabCards (tab.set i v) : List Card) : Multiset Card) + x =
      ((tabCards tab : List Card) : Multiset Card) := by
  have hset := tabCards_set tab i v hi
  rw [← hcol] at hset
  have h3 : (((tabCards (tab.set i v) : List Card) : Multiset Card) + x)
      + ((colCards v : List Card) : Multiset Card) =
      ((tabCards tab : List Card) : Multiset Card)
      + ((colCards v : List Card) : Multiset Card) := by
    rw [← hset]
    abel
  exact add_right_cancel h3

theorem tabCards_set_in (tab : List TableauColumn) (i : Nat) (v : TableauColumn)
    (hi : i < tab.length) (x : Multiset Card)
    (hcol : (colCards v : Multiset Card) =
      ((colCards (tab.getD i default) : List Card) : Multiset Card) + x) :
    ((tabCards (tab.set i v) : List Card) : Multiset Card) =
      ((tabCards tab : List Card) : Multiset Card) + x := by
  have hset := tabCards_set tab i v hi
  rw [hcol] at hset
  have h3 : ((tabCards (tab.set i v) : List Card) : Multiset Card)
      + ((colCards (tab.getD i default) : List Card) : Multiset Card) =
      (((tabCards tab : List Card) : Multiset Card) + x)
      + ((colCards (tab.getD i default) : List Card) : Multiset Card) := by
    rw [hset]
    abel
  exact add_right_cancel h3

theorem tabCards_two_set (tab : List TableauColumn) (d s : Nat) (v1 v2 : TableauColumn)
    (hd : d < tab.length) (hs : s < tab.length) (hne : d ≠ s)
    (x : Multiset Card)
    (h1 : (colCards v1 : Multiset Card) =
      ((colCards (tab.getD d default) : List Card) : Multiset Card) + x)
    (h2 : (colCards v2 : Multiset Card) + x =
      ((colCards (tab.getD s default) : List Card) : Multiset Card)) :
    ((tabCards ((tab.set d v1).set s v2) : List Card) : Multiset Card) =
      ((tabCards tab : List Card) : Multiset Card) := by
  have hB := tabCards_set_in tab d v1 hd x h1
  have hA := tabCards_set (tab.set d v1) s v2 (by rw [List.length_set]; exact hs)
  rw [getD_set_ne_col tab d s v1 hne, hB] at hA
  have hA2 : ((tabCards ((tab.set d v1).set s v2) : List Card) : Multiset Card)
      + ((colCards (tab.getD s default) : List Card) : Multiset Card) =
      ((tabCards tab : List Card) : Multiset Card)
      + ((colCards (tab.getD s default) : List Card) : Multiset Card) := by
    rw [hA, ← h2]
    abel
  exact add_right_cancel hA2

theorem present_W2F (g : Game) (e0 e1 e2 : Int) (hws : g.wasteSize ≤ g.handSize)
    (hw : g.wasteSize ≠ 0) :
    ((presentCards (g.apply ⟨.WASTE_TO_FOUNDATION, e0, e1, e2⟩) : List Card) :
        Multiset Card) + {g.wasteTop} =
      (presentCards g : Multiset Card) := by
  have hidx : g.handSize - g.wasteSize < g.hand.length := by
    unfold Game.handSize at *
    omega
  have herase := coe_eraseIdx g.hand (g.handSize - g.wasteSize) hidx
  unfold Game.apply
  dsimp only
  rw [present_coe, present_coe, tabCards_map_expose]
  rw [show g.wasteTop = g.hand.getD (g.handSize - g.wasteSize) default from rfl]
  rw [← herase]
  abel

theorem present_W2T (g : Game) (e0 e1 e2 : Int) (hws : g.wasteSize ≤ g.handSize)
    (hw : g.wasteSize ≠ 0) (hd : e0.toNat < g.tableau.length) :
    ((presentCards (g.apply ⟨.WASTE_TO_TABLEAU, e0, e1, e2⟩) : List Card) :
        Multiset Card) =
      (presentCards g : Multiset Card) := by
  have hidx : g.handSize - g.wasteSize < g.hand.length := by
    unfold Game.handSize at *
    omega
  have herase := coe_eraseIdx g.hand (g.handSize - g.wasteSize) hidx
  unfold Game.apply
  dsimp only
  rw [present_coe, present_coe, tabCards_map_expose]
  have htab := tabCards_set_in g.tableau e0.toNat
    { g.col e0.toNat with faceUp := (g.col e0.toNat).faceUp ++ [g.wasteTop] } hd
    {g.wasteTop} ?_
  · rw [htab, ← herase]
    abel
  · unfold colCards
    rw [show (g.tableau.getD e0.toNat default) = g.col e0.toNat from rfl]
    dsimp only
    simp only [← Multiset.coe_add, Multiset.coe_singleton]
    abel

theorem present_T2F (g : Game) (e0 e1 e2 : Int)
    (hsrc : e0.toNat < g.tableau.length) (hfu : (g.col e0.toNat).faceUp ≠ []) :
    ((presentCards (g.apply ⟨.TABLEAU_TO_FOUNDATION, e0, e1, e2⟩) : List Card) :
        Multiset Card)
        + {(g.col e0.toNat).faceUp.getD ((g.col e0.toNat).faceUp.length - 1) default} =
      (presentCards g : Multiset Card) := by
  have hdrop := coe_dropLast (g.col e0.toNat).faceUp hfu
  have hlast : (g.col e0.toNat).faceUp.getLastD default =
      (g.col e0.toNat).faceUp.getD ((g.col e0.toNat).faceUp.length - 1) default :=
    getLastD_eq_getD _
  unfold Game.apply
  dsimp only
  rw [present_coe, present_coe, tabCards_map_expose]
  have htab := tabCards_set_out g.tableau e0.toNat
    { g.col e0.toNat with faceUp := (g.col e0.toNat).faceUp.dropLast } hsrc
    {(g.col e0.toNat).faceUp.getD ((g.col e0.toNat).faceUp.length - 1) default} ?_
  · rw [← htab]
    abel
  · unfold colCards
    rw [show (g.tableau.getD e0.toNat default) = g.col e0.toNat from rfl]
    dsimp only
    simp only [← Multiset.coe_add]
    rw [← hlast, ← hdrop]
    abel

theorem present_T2T (g : Game) (e0 e1 e2 : Int)
    (hsrc : e0.toNat < g.tableau.length) (hdst : e2.toNat < g.tableau.length)
    (hne : e0.toNat ≠ e2.toNat) :
    ((presentCards (g.apply ⟨.TABLEAU_TO_TABLEAU, e0, e1, e2⟩) : List Card) :
        Multiset Card) =
      (presentCards g : Multiset Card) := by
  unfold Game.apply
  dsimp only
  rw [present_coe, present_coe, tabCards_map_expose]
  refine congrArg (fun m => ((g.hand : List Card) : Multiset Card) + m) ?_
  refine tabCards_two_set g.tableau e2.toNat e0.toNat _ _ hdst hsrc
    (fun hh => hne hh.symm) ((((g.col e0.toNat).faceUp.drop e1.toNat : List Card) :
      Multiset Card)) ?_ ?_
  · unfold colCards
    rw [show (g.tableau.getD e2.toNat default) = g.col e2.toNat from rfl]
    dsimp only
    simp only [← Multiset.coe_add]
    abel
  · unfold colCards
    rw [show (g.tableau.getD e0.toNat default) = g.col e0.toNat from rfl]
    dsimp only
    simp only [← Multiset.coe_add]
    rw [← coe_take_drop (g.col e0.toNat).faceUp e1.toNat]
    abel

end Solitaire

namespace Solitaire

theorem sub_mem {l l' : List Card} {c : Card}
    (h : ((l' : List Card) : Multiset Card) + {c} = (l : Multiset Card)) :
    ∀ a ∈ l', a ∈ l := by
  intro a ha
  have hle : ((l' : List Card) : Multiset Card) ≤ (l : Multiset Card) := by
    rw [← h]
    exact le_add_right (le_refl _)
  exact Multiset.mem_coe.mp (Multiset.mem_of_le hle (Multiset.mem_coe.mpr ha))

theorem sub_nodup {l l' : List Card} {c : Card}
    (h : ((l' : List Card) : Multiset Card) + {c} = (l : Multiset Card))
    (hn : l.Nodup) : l'.Nodup := by
  have hle : ((l' : List Card) : Multiset Card) ≤ (l : Multiset Card) := by
    rw [← h]
    exact le_add_right (le_refl _)
  exact Multiset.coe_nodup.mp (Multiset.nodup_of_le hle (Multiset.coe_nodup.mpr hn))

theorem sub_not_mem_self {l l' : List Card} {c : Card}
    (h : ((l' : List Card) : Multiset Card) + {c} = (l : Multiset Card))
    (hn : l.Nodup) : c ∉ l' := by
  intro hc
  have hcount : Multiset.count c (l : Multiset Card) ≤ 1 :=
    (Multiset.nodup_iff_count_le_one.mp (Multiset.coe_nodup.mpr hn)) c
  rw [← h, Multiset.count_add, Multiset.count_singleton_self] at hcount
  have hpos : 0 < Multiset.count c ((l' : List Card) : Multiset Card) :=
    Multiset.count_pos.mpr (Multiset.mem_coe.mpr hc)
  omega

theorem eq_mem {l l' : List Card}
    (h : ((l' : List Card) : Multiset Card) = (l : Multiset Card)) :
    ∀ a, a ∈ l' ↔ a ∈ l := by
  intro a
  rw [← Multiset.mem_coe, h, Multiset.mem_coe]

theorem eq_nodup {l l' : List Card}
    (h : ((l' : List Card) : Multiset Card) = (l : Multiset Card))
    (hn : l.Nodup) : l'.Nodup :=
  Multiset.coe_nodup.mp (h ▸ Multiset.coe_nodup.mpr hn)

theorem getD_set_found (l : List Int) (i : Nat) (a : Int) (j : Nat) :
    (l.set i a).getD j (-1) = if i = j ∧ i < l.length then a else l.getD j (-1) := by
  rw [List.getD_eq_getElem?_getD, List.getD_eq_getElem?_getD, List.getElem?_set]
  by_cases hij : i = j
  · subst hij
    by_cases hlen : i < l.length
    · simp [hlen]
    · simp only [if_pos rfl, hlen, and_false, if_false, if_neg hlen]
      rw [List.getElem?_eq_none (by omega)]
      simp
  · simp [hij]

theorem wasteTop_mem (g : Game) (hws : g.wasteSize ≤ g.handSize)
    (hw : g.wasteSize ≠ 0) : g.wasteTop ∈ presentCards g := by
  have hidx : g.handSize - g.wasteSize < g.hand.length := by
    unfold Game.handSize at *
    omega
  unfold presentCards
  exact List.mem_append_left _ (getD_mem g.hand _ hidx)

theorem colTop_mem (g : Game) (i : Nat) (hi : i < g.tableau.length)
    (hfu : (g.col i).faceUp ≠ []) :
    (g.col i).faceUp.getD ((g.col i).faceUp.length - 1) default ∈ presentCards g := by
  have hlen : 0 < (g.col i).faceUp.length := List.length_pos.mpr hfu
  unfold presentCards
  apply List.mem_append_right
  unfold tabCards
  rw [List.mem_flatMap]
  refine ⟨g.col i, getD_mem g.tableau i hi, ?_⟩
  unfold colCards
  exact List.mem_append_right _ (getD_mem _ _ (by omega))

end Solitaire

namespace Solitaire

theorem Inv_apply_DRAW (g : Game) (e0 e1 e2 : Int) (hInv : Inv g) :
    Inv (g.apply ⟨.DRAW, e0, e1, e2⟩) := by
  obtain ⟨hws, hvalid, hnodup, hfge, hdisj⟩ := hInv
  have heq := present_DRAW g e0 e1 e2
  refine ⟨?_, ?_, ?_, ?_, ?_⟩
  · show min _ g.handSize ≤ g.hand.length
    unfold Game.handSize at *
    omega
  · intro c hc
    exact hvalid c ((eq_mem heq c).mp hc)
  · exact eq_nodup heq hnodup
  · intro s
    exact hfge s
  · intro s hs0 hfnd hmem
    exact hdisj s hs0 hfnd ((eq_mem heq _).mp hmem)

theorem Inv_apply_W2F (g : Game) (e0 e1 e2 : Int) (hInv : Inv g)
    (hv : g.isValid ⟨.WASTE_TO_FOUNDATION, e0, e1, e2⟩ = true) :
    Inv (g.apply ⟨.WASTE_TO_FOUNDATION, e0, e1, e2⟩) := by
  obtain ⟨hw, hrank⟩ := isValid_W2F_elim g e0 e1 e2 hv
  obtain ⟨hws, hvalid, hnodup, hfge, hdisj⟩ := hInv
  have hsub := present_W2F g e0 e1 e2 hws hw
  have hidx : g.handSize - g.wasteSize < g.hand.length := by
    unfold Game.handSize at *
    omega
  have hcmem : g.wasteTop ∈ presentCards g := wasteTop_mem g hws hw
  have hcvalid := hvalid _ hcmem
  have hfound' : ∀ s : Int, (g.apply ⟨.WASTE_TO_FOUNDATION, e0, e1, e2⟩).found s =
      (g.foundation.set g.wasteTop.suit.toNat g.wasteTop.rank).getD s.toNat (-1) :=
    fun _ => rfl
  refine ⟨?_, ?_, ?_, ?_, ?_⟩
  · show g.wasteSize - 1 ≤ (g.hand.eraseIdx (g.handSize - g.wasteSize)).length
    rw [List.length_eraseIdx]
    unfold Game.handSize at *
    simp [hidx]
    omega
  · intro c hc
    exact hvalid c (sub_mem hsub c hc)
  · exact sub_nodup hsub hnodup
  · intro s
    rw [hfound', getD_set_found]
    split
    · have h1 := hfge g.wasteTop.suit
      show (-1 : Int) ≤ g.wasteTop.rank
      unfold Game.found at *
      omega
    · exact hfge s
  · intro s hs0 hfnd hmem
    rw [hfound', getD_set_found] at hfnd
    by_cases hcase : g.wasteTop.suit.toNat = s.toNat ∧
        g.wasteTop.suit.toNat < g.foundation.length
    · have hseq : s = g.wasteTop.suit := by
        have h1 := hcvalid.1
        omega
      by_cases hace : g.found g.wasteTop.suit = -1
      · have hrank0 : g.wasteTop.rank = 0 := by omega
        have hacecard : (⟨s, 0⟩ : Card) = g.wasteTop := by
          show (⟨s, 0⟩ : Card) = ⟨g.wasteTop.suit, g.wasteTop.rank⟩
          rw [hseq, hrank0]
        rw [hacecard] at hmem
        exact sub_not_mem_self hsub hnodup hmem
      · have hge : 0 ≤ g.found g.wasteTop.suit := by
          have := hfge g.wasteTop.suit
          omega
        exact hdisj s hs0 (by rw [hseq]; exact hge) (sub_mem hsub _ hmem)
    · rw [if_neg hcase] at hfnd
      exact hdisj s hs0 hfnd (sub_mem hsub _ hmem)

end Solitaire

namespace Solitaire

theorem Inv_apply_W2T (g : Game) (e0 e1 e2 : Int) (hInv : Inv g)
    (hv : g.isValid ⟨.WASTE_TO_TABLEAU, e0, e1, e2⟩ = true) :
    Inv (g.apply ⟨.WASTE_TO_TABLEAU, e0, e1, e2⟩) := by
  obtain ⟨hw, he0, hd⟩ := isValid_W2T_elim g e0 e1 e2 hv
  obtain ⟨hws, hvalid, hnodup, hfge, hdisj⟩ := hInv
  have heq := present_W2T g e0 e1 e2 hws hw hd
  have hidx : g.handSize - g.wasteSize < g.hand.length := by
    unfold Game.handSize at *
    omega
  refine ⟨?_, ?_, ?_, ?_, ?_⟩
  · show g.wasteSize - 1 ≤ (g.hand.eraseIdx (g.handSize - g.wasteSize)).length
    rw [List.length_eraseIdx]
    unfold Game.handSize at *
    simp [hidx]
    omega
  · intro c hc
    exact hvalid c ((eq_mem heq c).mp hc)
  · exact eq_nodup heq hnodup
  · intro s
    exact hfge s
  · intro s hs0 hfnd hmem
    exact hdisj s hs0 hfnd ((eq_mem heq _).mp hmem)

theorem Inv_apply_T2F (g : Game) (e0 e1 e2 : Int) (hInv : Inv g)
    (hv : g.isValid ⟨.TABLEAU_TO_FOUNDATION, e0, e1, e2⟩ = true) :
    Inv (g.apply ⟨.TABLEAU_TO_FOUNDATION, e0, e1, e2⟩) := by
  obtain ⟨he0, hsrc, hfu, hrank⟩ := isValid_T2F_elim g e0 e1 e2 hv
  obtain ⟨hws, hvalid, hnodup, hfge, hdisj⟩ := hInv
  have hsub := present_T2F g e0 e1 e2 hsrc hfu
  have hcmem := colTop_mem g e0.toNat hsrc hfu
  have hcvalid := hvalid _ hcmem
  have hfound' : ∀ s : Int, (g.apply ⟨.TABLEAU_TO_FOUNDATION, e0, e1, e2⟩).found s =
      (g.foundation.set
        ((g.col e0.toNat).faceUp.getD ((g.col e0.toNat).faceUp.length - 1)
          default).suit.toNat
        ((g.col e0.toNat).faceUp.getD ((g.col e0.toNat).faceUp.length - 1)
          default).rank).getD s.toNat (-1) :=
    fun _ => rfl
  refine ⟨?_, ?_, ?_, ?_, ?_⟩
  · exact hws
  · intro c hc
    exact hvalid c (sub_mem hsub c hc)
  · exact sub_nodup hsub hnodup
  · intro s
    rw [hfound', getD_set_found]
    split
    · have h1 := hfge ((g.col e0.toNat).faceUp.getD
        ((g.col e0.toNat).faceUp.length - 1) default).suit
      unfold Game.found at *
      omega
    · exact hfge s
  · intro s hs0 hfnd hmem
    rw [hfound', getD_set_found] at hfnd
    by_cases hcase : ((g.col e0.toNat).faceUp.getD
        ((g.col e0.toNat).faceUp.length - 1) default).suit.toNat = s.toNat ∧
        ((g.col e0.toNat).faceUp.getD ((g.col e0.toNat).faceUp.length - 1)
          default).suit.toNat < g.foundation.length
    · have hseq : s = ((g.col e0.toNat).faceUp.getD
          ((g.col e0.toNat).faceUp.length - 1) default).suit := by
        have h1 := hcvalid.1
        omega
      by_cases hace : g.found ((g.col e0.toNat).faceUp.getD
          ((g.col e0.toNat).faceUp.length - 1) default).suit = -1
      · have hrank0 : ((g.col e0.toNat).faceUp.getD
            ((g.col e0.toNat).faceUp.length - 1) default).rank = 0 := by omega
        have hacecard : (⟨s, 0⟩ : Card) = (g.col e0.toNat).faceUp.getD
            ((g.col e0.toNat).faceUp.length - 1) default := by
          show (⟨s, 0⟩ : Card) = ⟨((g.col e0.toNat).faceUp.getD
            ((g.col e0.toNat).faceUp.length - 1) default).suit,
            ((g.col e0.toNat).faceUp.getD
              ((g.col e0.toNat).faceUp.length - 1) default).rank⟩
          rw [hseq, hrank0]
        rw [hacecard] at hmem
        exact sub_not_mem_self hsub hnodup hmem
      · have hge : 0 ≤ g.found ((g.col e0.toNat).faceUp.getD
            ((g.col e0.toNat).faceUp.length - 1) default).suit := by
          have := hfge ((g.col e0.toNat).faceUp.getD
            ((g.col e0.toNat).faceUp.length - 1) default).suit
          omega
        exact hdisj s hs0 (by rw [hseq]; exact hge) (sub_mem hsub _ hmem)
    · rw [if_neg hcase] at hfnd
      exact hdisj s hs0 hfnd (sub_mem hsub _ hmem)

theorem Inv_apply_T2T (g : Game) (e0 e1 e2 : Int) (hInv : Inv g)
    (hv : g.isValid ⟨.TABLEAU_TO_TABLEAU, e0, e1, e2⟩ = true)
    (hne : e0.toNat ≠ e2.toNat) :
    Inv (g.apply ⟨.TABLEAU_TO_TABLEAU, e0, e1, e2⟩) := by
  obtain ⟨h1, hsrc, h3, hdst, h5, h6⟩ := isValid_T2T_elim g e0 e1 e2 hv
  obtain ⟨hws, hvalid, hnodup, hfge, hdisj⟩ := hInv
  have heq := present_T2T g e0 e1 e2 hsrc hdst hne
  refine ⟨?_, ?_, ?_, ?_, ?_⟩
  · exact hws
  · intro c hc
    exact hvalid c ((eq_mem heq c).mp hc)
  · exact eq_nodup heq hnodup
  · intro s
    exact hfge s
  · intro s hs0 hfnd hmem
    exact hdisj s hs0 hfnd ((eq_mem heq _).mp hmem)

/-- `Inv` is preserved by applying a valid move whose source and
destination columns differ when it is a tableau-to-tableau move (the
generators only emit such moves). -/
theorem Inv_apply (g : Game) (m : Move) (hInv : Inv g) (hv : g.isValid m = true)
    (ht2t : m.type = .TABLEAU_TO_TABLEAU → m.e0.toNat ≠ m.e2.toNat) :
    Inv (g.apply m) := by
  obtain ⟨t, e0, e1, e2⟩ := m
  cases t with
  | DRAW => exact Inv_apply_DRAW g e0 e1 e2 hInv
  | WASTE_TO_FOUNDATION => exact Inv_apply_W2F g e0 e1 e2 hInv hv
  | WASTE_TO_TABLEAU => exact Inv_apply_W2T g e0 e1 e2 hInv hv
  | TABLEAU_TO_FOUNDATION => exact Inv_apply_T2F g e0 e1 e2 hInv hv
  | TABLEAU_TO_TABLEAU => exact Inv_apply_T2T g e0 e1 e2 hInv hv (ht2t rfl)

end Solitaire

namespace Solitaire

theorem mem_insertLe {α : Type} (le : α → α → Bool) (x a : α) (l : List α) :
    a ∈ insertLe le x l ↔ a = x ∨ a ∈ l := by
  induction l with
  | nil => simp [insertLe]
  | cons y ys ih =>
    unfold insertLe
    split
    · rw [List.mem_cons, ih, List.mem_cons]
      tauto
    · rw [List.mem_cons]

theorem mem_stableSortLe {α : Type} (le : α → α → Bool) (a : α) (l : List α) :
    a ∈ stableSortLe le l ↔ a ∈ l := by
  unfold stableSortLe
  suffices h : ∀ acc : List α, a ∈ l.foldl (fun acc x => insertLe le x acc) acc ↔
      a ∈ acc ∨ a ∈ l by
    rw [h []]
    simp
  induction l with
  | nil => intro acc; simp
  | cons y ys ih =>
    intro acc
    rw [List.foldl_cons, ih (insertLe le y acc), mem_insertLe]
    simp only [List.mem_cons]
    tauto

/-- All moves produced by `addAceMoves` are valid under the invariant. -/
theorem addAceMoves_sound (g : Game) (hInv : Inv g) (m : Move)
    (hm : m ∈ addAceMoves g) : g.isValid m = true := by
  obtain ⟨hws, hvalid, hnodup, hfge, hdisj⟩ := hInv
  unfold addAceMoves at hm
  rw [List.mem_append] at hm
  rcases hm with hm | hm
  · -- waste ace
    split at hm
    · rename_i hcond
      simp only [Bool.and_eq_true, decide_eq_true_eq, beq_iff_eq] at hcond
      obtain ⟨hwpos, hrank0⟩ := hcond
      rw [List.mem_singleton] at hm
      subst hm
      have hw : g.wasteSize ≠ 0 := by omega
      have hcmem : g.wasteTop ∈ presentCards g := wasteTop_mem g hws hw
      have hcvalid := hvalid _ hcmem
      have hrank0' : g.wasteTop.rank = 0 := hrank0
      have hfnd : g.found g.wasteTop.suit = -1 := by
        by_contra hne
        have hge : 0 ≤ g.found g.wasteTop.suit := by
          have := hfge g.wasteTop.suit
          omega
        refine hdisj g.wasteTop.suit hcvalid.1 hge ?_
        have hcard : (⟨g.wasteTop.suit, (0 : Int)⟩ : Card) = g.wasteTop := by
          show _ = (⟨g.wasteTop.suit, g.wasteTop.rank⟩ : Card)
          rw [hrank0']
        rw [hcard]
        exact hcmem
      unfold Game.isValid
      dsimp only
      rw [if_neg (by simp [hw])]
      simp only [Bool.not_eq_true', bne_eq_false_iff_eq]
      rw [hrank0', hfnd]
      decide
    · simp at hm
  · -- tableau ace
    rw [List.mem_filterMap] at hm
    obtain ⟨i, hi, hcol⟩ := hm
    rw [List.mem_range] at hi
    dsimp only at hcol
    split at hcol
    · rename_i hcond
      simp only [Bool.and_eq_true, decide_eq_true_eq, beq_iff_eq] at hcond
      obtain ⟨hlen, hrank0⟩ := hcond
      rw [Option.some_inj] at hcol
      subst hcol
      have hfu : (g.col i).faceUp ≠ [] := by
        intro hh
        rw [hh] at hlen
        simp at hlen
      have hcmem := colTop_mem g i hi hfu
      have hcvalid := hvalid _ hcmem
      have hfnd : g.found ((g.col i).faceUp.getD ((g.col i).faceUp.length - 1)
          default).suit = -1 := by
        by_contra hne
        have hge : 0 ≤ g.found ((g.col i).faceUp.getD ((g.col i).faceUp.length - 1)
            default).suit := by
          have := hfge ((g.col i).faceUp.getD ((g.col i).faceUp.length - 1)
            default).suit
          omega
        refine hdisj _ hcvalid.1 hge ?_
        have hcard : (⟨((g.col i).faceUp.getD ((g.col i).faceUp.length - 1)
            default).suit, (0 : Int)⟩ : Card) =
            (g.col i).faceUp.getD ((g.col i).faceUp.length - 1) default := by
          show _ = (⟨((g.col i).faceUp.getD ((g.col i).faceUp.length - 1)
            default).suit,
            ((g.col i).faceUp.getD ((g.col i).faceUp.length - 1) default).rank⟩ : Card)
          rw [hrank0]
        rw [hcard]
        exact hcmem
      unfold Game.isValid
      dsimp only
      rw [if_neg ?_]
      · simp only [Bool.not_eq_true', bne_eq_false_iff_eq]
        rw [show ((i : Int)).toNat = i from by omega]
        rw [hrank0, hfnd]
        decide
      · simp only [Bool.or_eq_true, decide_eq_true_eq, beq_iff_eq, not_or]
        refine ⟨⟨by omega, by omega⟩, ?_⟩
        rw [show ((i : Int)).toNat = i from by omega]
        intro hh
        exact hfu (List.length_eq_zero.mp hh)
    · simp at hcol

end Solitaire

namespace Solitaire

/-- Generated moves are valid and, for tableau-to-tableau moves, have
distinct source and destination columns. -/
def GenOk (g : Game) (m : Move) : Prop :=
  g.isValid m = true ∧ (m.type = .TABLEAU_TO_TABLEAU → m.e0.toNat ≠ m.e2.toNat)

theorem addToFoundationMoves_sound (g : Game) (m : Move)
    (hm : m ∈ addToFoundationMoves g) : GenOk g m := by
  unfold addToFoundationMoves at hm
  rw [List.mem_append] at hm
  rcases hm with hm | hm
  · split at hm
    · dsimp only at hm
      split at hm
      · rename_i hv
        rw [List.mem_singleton] at hm
        subst hm
        exact ⟨hv, fun hh => nomatch hh⟩
      · simp at hm
    · simp at hm
  · rw [List.mem_filterMap] at hm
    obtain ⟨i, hi, hcol⟩ := hm
    dsimp only at hcol
    split at hcol
    · split at hcol
      · rename_i hv
        rw [Option.some_inj] at hcol
        subst hcol
        exact ⟨hv, fun hh => nomatch hh⟩
      · simp at hcol
    · simp at hcol

theorem addCardRevealingMoves_sound (g : Game) (m : Move)
    (hm : m ∈ addCardRevealingMoves g) : GenOk g m := by
  unfold addCardRevealingMoves at hm
  rw [mem_stableSortLe, List.mem_flatMap] at hm
  obtain ⟨src, hsrc, hm⟩ := hm
  dsimp only at hm
  split at hm
  · simp at hm
  · split at hm
    · rw [List.mem_filterMap] at hm
      obtain ⟨dst, hdst, hcol⟩ := hm
      simp at hdst
      obtain ⟨d, ⟨hdlen, hdne⟩, hdeq⟩ := hdst
      subst hdeq
      split at hcol
      · rename_i hv
        rw [Option.some_inj] at hcol
        subst hcol
        refine ⟨hv, fun _ => ?_⟩
        show ((src : Int)).toNat ≠ ((d : Int)).toNat
        omega
      · simp at hcol
    · simp at hm

theorem addWasteToTableauMoves_sound (g : Game) (m : Move)
    (hm : m ∈ addWasteToTableauMoves g) : GenOk g m := by
  unfold addWasteToTableauMoves at hm
  rw [List.mem_filterMap] at hm
  obtain ⟨i, hi, hcol⟩ := hm
  dsimp only at hcol
  split at hcol
  · rename_i hv
    rw [Option.some_inj] at hcol
    subst hcol
    exact ⟨hv, fun hh => nomatch hh⟩
  · simp at hcol

theorem addDrawMove_sound (g : Game) (m : Move)
    (hm : m ∈ addDrawMove g) : GenOk g m := by
  unfold addDrawMove at hm
  dsimp only at hm
  split at hm
  · rename_i hv
    rw [List.mem_singleton] at hm
    subst hm
    exact ⟨hv, fun hh => nomatch hh⟩
  · simp at hm

theorem nonRevealingMoves_sound (g : Game) (m : Move)
    (hm : m ∈ nonRevealingMoves g) : GenOk g m := by
  unfold nonRevealingMoves at hm
  rw [List.mem_flatMap] at hm
  obtain ⟨src, hsrc, hm⟩ := hm
  rw [List.mem_flatMap] at hm
  obtain ⟨row, hrow, hm⟩ := hm
  rw [List.mem_filterMap] at hm
  obtain ⟨dst, hdst, hcol⟩ := hm
  simp at hdst
  obtain ⟨d, ⟨hdlen, hdne⟩, hdeq⟩ := hdst
  subst hdeq
  dsimp only at hcol
  split at hcol
  · rename_i hv
    rw [Option.some_inj] at hcol
    subst hcol
    refine ⟨hv, fun _ => ?_⟩
    show ((src : Int)).toNat ≠ ((d : Int)).toNat
    omega
  · simp at hcol

theorem addAceMoves_genOk (g : Game) (hInv : Inv g) (m : Move)
    (hm : m ∈ addAceMoves g) : GenOk g m := by
  refine ⟨addAceMoves_sound g hInv m hm, fun hh => ?_⟩
  exfalso
  unfold addAceMoves at hm
  rw [List.mem_append] at hm
  rcases hm with hm | hm
  · split at hm
    · rw [List.mem_singleton] at hm
      subst hm
      exact nomatch hh
    · simp at hm
  · rw [List.mem_filterMap] at hm
    obtain ⟨i, hi, hcol⟩ := hm
    dsimp only at hcol
    split at hcol
    · rw [Option.some_inj] at hcol
      subst hcol
      exact nomatch hh
    · simp at hcol

/-- Every move handed to the search loop is valid (given the ghost
soundness flag of the move cache for this lookup). -/
theorem getValidMoves_sound (g : Game) (cache : EvictingCacheMap (List Move))
    (hInv : Inv g) (hsound : (getValidMoves g cache).2.2 = true) (m : Move)
    (hm : m ∈ (getValidMoves g cache).1) : GenOk g m := by
  unfold getValidMoves at hm hsound
  rcases hA : addTableauToTableauMoves g cache with ⟨t2t, cache', sound⟩
  rw [hA] at hm hsound
  dsimp only at hm hsound
  simp only [List.mem_append] at hm
  rcases hm with ((((hm | hm) | hm) | hm) | hm) | hm
  · exact addAceMoves_genOk g hInv m hm
  · exact addToFoundationMoves_sound g m hm
  · exact addCardRevealingMoves_sound g m hm
  · exact addWasteToTableauMoves_sound g m hm
  · exact addDrawMove_sound g m hm
  · -- the cached tableau-to-tableau group
    have ht2t : m ∈ nonRevealingMoves g := by
      unfold addTableauToTableauMoves at hA
      dsimp only at hA
      split at hA
      · rw [Prod.mk.injEq, Prod.mk.injEq] at hA
        obtain ⟨h1, h2, h3⟩ := hA
        rw [← h3] at hsound
        rw [beq_iff_eq] at hsound
        rw [← h1, hsound] at hm
        exact hm
      · rw [Prod.mk.injEq, Prod.mk.injEq] at hA
        obtain ⟨h1, h2, h3⟩ := hA
        rw [← h1] at hm
        exact hm
    exact nonRevealingMoves_sound g m ht2t

end Solitaire

namespace Solitaire

theorem drop_take_succ (l : List Card) (j k : Nat) (h : j + k < l.length) :
    (l.drop j).take (k + 1) = (l.drop j).take k ++ [l.getD (j + k) default] := by
  rw [List.take_succ]
  congr 1
  rw [List.getElem?_drop]
  rw [List.getElem?_eq_getElem h, List.getD_eq_getElem l default h]
  rfl

theorem deal_fold_multiset (deck : List Card) :
    ∀ (pairs : List (Nat × Nat)) (n : Nat) (tab : List TableauColumn),
      (∀ rc ∈ pairs, rc.2 < tab.length) →
      pairs.length ≤ n → n ≤ deck.length →
      (pairs.foldl (dealStep deck) (n, tab)).1 = n - pairs.length ∧
      (pairs.foldl (dealStep deck) (n, tab)).2.length = tab.length ∧
      ((tabCards (pairs.foldl (dealStep deck) (n, tab)).2 : List Card) : Multiset Card) =
        (tabCards tab : Multiset Card) +
        (((deck.drop (n - pairs.length)).take pairs.length : List Card) : Multiset Card)
  | [], n, tab, hcols, hlen1, hlen2 => by
    refine ⟨rfl, rfl, ?_⟩
    simp
  | rc :: rest, n, tab, hcols, hlen1, hlen2 => by
    rw [List.foldl_cons]
    have hrc : rc.2 < tab.length := hcols rc (List.mem_cons_self _ _)
    have hstep : dealStep deck (n, tab) rc =
        (n - 1, tab.set rc.2
          (if rc.1 = rc.2 then
            { tab.getD rc.2 default with
              faceUp := (tab.getD rc.2 default).faceUp ++ [deck.getD (n - 1) default] }
          else
            { tab.getD rc.2 default with
              faceDown :=
                (tab.getD rc.2 default).faceDown ++ [deck.getD (n - 1) default] })) := by
      unfold dealStep
      dsimp only
    rw [hstep]
    obtain ⟨ih1, ih2, ih3⟩ := deal_fold_multiset deck rest (n - 1) _
      (by
        intro p hp
        rw [List.length_set]
        exact hcols p (List.mem_cons_of_mem _ hp))
      (by
        have := hlen1
        simp only [List.length_cons] at this
        omega)
      (by omega)
    refine ⟨?_, ?_, ?_⟩
    · rw [ih1]
      simp only [List.length_cons]
      omega
    · rw [ih2, List.length_set]
    · rw [ih3]
      have htabset : ((tabCards (tab.set rc.2
          (if rc.1 = rc.2 then
            { tab.getD rc.2 default with
              faceUp := (tab.getD rc.2 default).faceUp ++ [deck.getD (n - 1) default] }
          else
            { tab.getD rc.2 default with
              faceDown :=
                (tab.getD rc.2 default).faceDown ++ [deck.getD (n - 1) default] })) :
            List Card) : Multiset Card) =
          (tabCards tab : Multiset Card) + {deck.getD (n - 1) default} := by
        apply tabCards_set_in tab rc.2 _ hrc
        split
        · unfold colCards
          dsimp only
          simp only [← Multiset.coe_add, Multiset.coe_singleton]
          abel
        · unfold colCards
          dsimp only
          simp only [← Multiset.coe_add, Multiset.coe_singleton]
          abel
      rw [htabset]
      have hlen1' : rest.length + 1 ≤ n := by
        have := hlen1
        simp only [List.length_cons] at this
        omega
      have hseg : ((deck.drop (n - (rc :: rest).length)).take (rc :: rest).length :
          Multiset Card) =
          ((deck.drop (n - 1 - rest.length)).take rest.length : Multiset Card)
          + {deck.getD (n - 1) default} := by
        simp only [List.length_cons]
        have hj : n - (rest.length + 1) = n - 1 - rest.length := by omega
        rw [hj]
        rw [drop_take_succ deck (n - 1 - rest.length) rest.length (by omega)]
        rw [show n - 1 - rest.length + rest.length = n - 1 from by omega]
        rw [← Multiset.coe_add]
        simp only [Multiset.coe_singleton]
      rw [hseg]
      abel

theorem getD_replicate_self (n j : Nat) (a : Int) : (List.replicate n a).getD j a = a := by
  rw [List.getD_eq_getElem?_getD]
  rcases Nat.lt_or_ge j n with h | h
  · rw [List.getElem?_replicate]
    simp [h]
  · rw [List.getElem?_eq_none (by simp; omega)]
    rfl

theorem present_mkGame (deck : List Card) (ds : Nat) (h52 : deck.length = 52) :
    ((presentCards (mkGame deck ds) : List Card) : Multiset Card) =
      (deck : Multiset Card) := by
  unfold mkGame presentCards
  dsimp only
  obtain ⟨h1, h2, h3⟩ := deal_fold_multiset deck dealPairs deck.length
    (List.replicate TABLEAU_SIZE ({ faceDown := [], faceUp := [] } : TableauColumn))
    (by decide) (by rw [h52]; decide) (le_refl _)
  rw [← Multiset.coe_add, h3]
  have hdp : dealPairs.length = 28 := by decide
  have htab0 : tabCards (List.replicate TABLEAU_SIZE
      ({ faceDown := [], faceUp := [] } : TableauColumn)) = [] := by decide
  rw [hdp, htab0, h52]
  have htake : (deck.drop (52 - 28)).take 28 = deck.drop 24 := by
    rw [show (52 - 28 : Nat) = 24 from rfl]
    apply List.take_of_length_le
    rw [List.length_drop, h52]
  rw [htake]
  rw [show MAX_HAND_SIZE = 24 from rfl]
  rw [← coe_take_drop deck 24]
  simp

/-- A freshly dealt game from a 52-card deck of distinct valid cards
satisfies the invariant. -/
theorem Inv_mkGame (deck : List Card) (ds : Nat) (h52 : deck.length = 52)
    (hnodup : deck.Nodup) (hvalid : ∀ c ∈ deck, c.valid) : Inv (mkGame deck ds) := by
  have hpres := present_mkGame deck ds h52
  refine ⟨?_, ?_, ?_, ?_, ?_⟩
  · exact Nat.zero_le _
  · intro c hc
    exact hvalid c ((eq_mem hpres c).mp hc)
  · exact eq_nodup hpres hnodup
  · intro s
    show (-1 : Int) ≤ (List.replicate NUM_SUITS (-1 : Int)).getD s.toNat (-1)
    rw [getD_replicate_self]
  · intro s hs0 hfnd hmem
    have hf : (mkGame deck ds).found s = -1 := getD_replicate_self NUM_SUITS s.toNat (-1)
    omega

end Solitaire

namespace Solitaire

theorem cacheSound_mono_maybe
    (recurse : Game → List (List Card) → Bool → Nat → SState →
      Option (List Move) × List (List Card) × SState)
    (hrec : ∀ g s f d st, (recurse g s f d st).2.2.cacheSound = true →
      st.cacheSound = true)
    (move : Move) (game : Game) (seen : List (List Card)) (canFlip : Bool)
    (depth : Nat) (st : SState)
    (h : (maybeApplyMoveF recurse move game seen canFlip depth st).2.2.cacheSound
      = true) :
    st.cacheSound = true := by
  unfold maybeApplyMoveF at h
  dsimp only at h
  generalize hfo : (if move.type == MoveType.DRAW then
      if game.handArrayEmpty then
        if canFlip then some false else none
      else some canFlip
    else if move.type == MoveType.WASTE_TO_FOUNDATION
        || move.type == MoveType.WASTE_TO_TABLEAU then some true
    else some canFlip) = fo at h
  rcases fo with _ | c
  · exact h
  · dsimp only at h
    split at h
    · exact h
    · exact hrec _ _ _ _ _ h

theorem cacheSound_mono_try
    (step : Move → List (List Card) → Bool → Nat → SState →
      Option (List Move) × List (List Card) × SState)
    (hstep : ∀ m s f d st, (step m s f d st).2.2.cacheSound = true →
      st.cacheSound = true) :
    ∀ (moves : List Move) (seen : List (List Card)) (canFlip : Bool)
      (depth : Nat) (st : SState),
      (tryMovesF step moves seen canFlip depth st).2.2.cacheSound = true →
      st.cacheSound = true := by
  intro moves
  induction moves with
  | nil => intro seen _ _ st h; exact h
  | cons m rest ih =>
    intro seen canFlip depth st h
    unfold tryMovesF at h
    dsimp only at h
    split at h
    · exact hstep m seen canFlip depth st h
    · exact hstep m seen canFlip depth st (ih _ _ _ _ h)

theorem cacheSound_mono_solve (timedOut : Nat → Bool) :
    ∀ (fuel : Nat) (g : Game) (seen : List (List Card)) (canFlip : Bool)
      (depth : Nat) (st : SState),
      (solveImpl timedOut fuel g seen canFlip depth st).2.2.cacheSound = true →
      st.cacheSound = true := by
  intro fuel
  induction fuel with
  | zero => intro g seen _ _ st h; exact h
  | succ n ih =>
    intro g seen canFlip depth st h
    unfold solveImpl at h
    dsimp only at h
    split at h
    · exact h
    · split at h
      · exact h
      · split at h
        · exact h
        · have h3 := cacheSound_mono_try _
            (fun m s f d st' hh => cacheSound_mono_maybe _
              (fun g' s' f' d' st'' hh' => ih g' s' f' d' st'' hh') m g s f d st' hh)
            _ _ _ _ _ h
          dsimp only at h3
          rw [Bool.and_eq_true] at h3
          exact h3.1

end Solitaire

namespace Solitaire

theorem tryMovesF_some
    (step : Move → List (List Card) → Bool → Nat → SState →
      Option (List Move) × List (List Card) × SState) :
    ∀ (moves : List Move) (seen : List (List Card)) (canFlip : Bool)
      (depth : Nat) (st : SState) (l : List Move),
      (tryMovesF step moves seen canFlip depth st).1 = some l →
      ∃ m r s' st', l = m :: r ∧ m ∈ moves ∧
        (step m s' canFlip depth st').1 = some r ∧
        (step m s' canFlip depth st').2.2 =
          (tryMovesF step moves seen canFlip depth st).2.2 := by
  intro moves
  induction moves with
  | nil => intro seen cf d st l h; simp [tryMovesF] at h
  | cons m rest ih =>
    intro seen cf d st l h
    rcases hE : (step m seen cf d st).1 with _ | rem
    · have hred : tryMovesF step (m :: rest) seen cf d st =
          tryMovesF step rest (step m seen cf d st).2.1 cf d
            (step m seen cf d st).2.2 := by
        conv_lhs => unfold tryMovesF
        dsimp only
        rw [hE]
      rw [hred] at h ⊢
      obtain ⟨m', r, s', st', h1, h2, h3, h4⟩ := ih _ _ _ _ _ h
      exact ⟨m', r, s', st', h1, List.mem_cons_of_mem _ h2, h3, h4⟩
    · have hred : tryMovesF step (m :: rest) seen cf d st =
          (some (m :: rem), (step m seen cf d st).2.1, (step m seen cf d st).2.2) := by
        unfold tryMovesF
        dsimp only
        rw [hE]
      rw [hred] at h ⊢
      dsimp only at h ⊢
      rw [Option.some_inj] at h
      exact ⟨m, rem, seen, st, h.symm, List.mem_cons_self _ _, hE, rfl⟩

theorem maybeApplyMoveF_some
    (recurse : Game → List (List Card) → Bool → Nat → SState →
      Option (List Move) × List (List Card) × SState)
    (move : Move) (game : Game) (seen : List (List Card)) (canFlip : Bool)
    (depth : Nat) (st : SState) (r : List Move)
    (h : (maybeApplyMoveF recurse move game seen canFlip depth st).1 = some r) :
    ∃ s' c', (recurse (game.apply move) s' c' (depth + 1) st).1 = some r ∧
      (recurse (game.apply move) s' c' (depth + 1) st).2.2 =
        (maybeApplyMoveF recurse move game seen canFlip depth st).2.2 := by
  unfold maybeApplyMoveF at h ⊢
  dsimp only at h ⊢
  generalize hfo : (if move.type == MoveType.DRAW then
      if game.handArrayEmpty then
        if canFlip then some false else none
      else some canFlip
    else if move.type == MoveType.WASTE_TO_FOUNDATION
        || move.type == MoveType.WASTE_TO_TABLEAU then some true
    else some canFlip) = fo at h ⊢
  rcases fo with _ | c
  · simp at h
  · dsimp only at h ⊢
    split at h
    · simp at h
    · rename_i hcond
      rw [if_neg hcond]
      dsimp only at h
      exact ⟨_, c, h, rfl⟩

theorem solveImpl_isWon (timedOut : Nat → Bool) :
    ∀ (fuel : Nat) (g : Game) (seen : List (List Card)) (canFlip : Bool)
      (depth : Nat) (st : SState) (ms : List Move),
      (solveImpl timedOut fuel g seen canFlip depth st).1 = some ms →
      (replayFinal g ms).isWon = true := by
  intro fuel
  induction fuel with
  | zero => intro g seen cf d st ms h; simp [solveImpl] at h
  | succ n ih =>
    intro g seen cf d st ms h
    unfold solveImpl at h
    dsimp only at h
    split at h
    · simp at h
    · split at h
      · rename_i hwon
        dsimp only at h
        rw [Option.some_inj] at h
        subst h
        exact hwon
      · split at h
        · simp at h
        · obtain ⟨m, r, s', st', hl, hmem, hstep_some, hstep_state⟩ :=
            tryMovesF_some _ _ _ _ _ _ _ h
          obtain ⟨s'', c'', hrec_some, hrec_state⟩ :=
            maybeApplyMoveF_some _ _ _ _ _ _ _ _ hstep_some
          subst hl
          show (replayFinal (g.apply m) r).isWon = true
          exact ih _ _ _ _ _ _ hrec_some

end Solitaire

namespace Solitaire

theorem solveImpl_validSeq (timedOut : Nat → Bool) :
    ∀ (fuel : Nat) (g : Game) (seen : List (List Card)) (canFlip : Bool)
      (depth : Nat) (st : SState) (ms : List Move),
      Inv g →
      (solveImpl timedOut fuel g seen canFlip depth st).1 = some ms →
      (solveImpl timedOut fuel g seen canFlip depth st).2.2.cacheSound = true →
      validSeq g ms = true := by
  intro fuel
  induction fuel with
  | zero => intro g seen cf d st ms _ h _; simp [solveImpl] at h
  | succ n ih =>
    intro g seen cf d st ms hInv h hsound
    unfold solveImpl at h hsound
    dsimp only at h hsound
    split at h
    · simp at h
    · rename_i hexp
      rw [if_neg hexp] at hsound
      split at h
      · dsimp only at h
        rw [Option.some_inj] at h
        subst h
        rfl
      · rename_i hwon
        rw [if_neg hwon] at hsound
        split at h
        · simp at h
        · rename_i hhit
          rw [if_neg hhit] at hsound
          have hst3 := cacheSound_mono_try _
            (fun m s f d' st' hh => cacheSound_mono_maybe _
              (fun g' s' f' d'' st'' hh' =>
                cacheSound_mono_solve timedOut n g' s' f' d'' st'' hh')
              m g s f d' st' hh)
            _ _ _ _ _ hsound
          dsimp only at hst3
          rw [Bool.and_eq_true] at hst3
          obtain ⟨hstc, hgvm⟩ := hst3
          obtain ⟨m, r, s', st', hl, hmem, hstep_some, hstep_state⟩ :=
            tryMovesF_some _ _ _ _ _ _ _ h
          obtain ⟨s'', c'', hrec_some, hrec_state⟩ :=
            maybeApplyMoveF_some _ _ _ _ _ _ _ _ hstep_some
          have hgen := getValidMoves_sound g st.tableauMoveCache hInv hgvm m hmem
          have hInv' := Inv_apply g m hInv hgen.1 hgen.2
          have hsound' : (solveImpl timedOut n (g.apply m) s'' c'' (d + 1)
              st').2.2.cacheSound = true := by
            rw [hrec_state, hstep_state]
            exact hsound
          have hvs := ih (g.apply m) s'' c'' (d + 1) st' r hInv' hrec_some hsound'
          subst hl
          show (g.isValid m && validSeq (g.apply m) r) = true
          rw [hgen.1, hvs]
          rfl

end Solitaire

namespace Solitaire

/-- C1 (amended): for a 52-card deck of pairwise distinct, structurally
valid cards, if `solve` reports SOLVED and every tableau-move-cache hit
during the search returned the move list of the queried tableau (the
ghost `cacheSound` flag — an FNV-64 collision in the move cache can
inject moves generated for a different tableau), then replaying
`result.moves` from a freshly dealt game keeps `isValid` true before
every `apply` and ends in a state with `isWon` = true. -/
theorem C1_replay (deck : List Card) (ds : Nat) (timedOut : Nat → Bool)
    (fuel scap mcap : Nat)
    (h52 : deck.length = 52) (hnodup : deck.Nodup)
    (hvalidc : ∀ c ∈ deck, c.valid)
    (hstatus : (solve timedOut fuel (mkGame deck ds) scap mcap).1.status = .SOLVED)
    (hsound : (solve timedOut fuel (mkGame deck ds) scap mcap).2.cacheSound = true) :
    validSeq (mkGame deck ds)
        (solve timedOut fuel (mkGame deck ds) scap mcap).1.moves = true ∧
    (replayFinal (mkGame deck ds)
        (solve timedOut fuel (mkGame deck ds) scap mcap).1.moves).isWon = true := by
  rcases hr : solveImpl timedOut fuel (mkGame deck ds) [] false 0
      ⟨⟨scap, []⟩, ⟨mcap, []⟩, 0, 0, true⟩ with ⟨mv, seenF, stF⟩
  rcases mv with _ | ms
  · exfalso
    by_cases ht : timedOut stF.clock <;> simp [solve, hr, ht] at hstatus
  · have hmoves : (solve timedOut fuel (mkGame deck ds) scap mcap).1.moves = ms := by
      simp [solve, hr]
    have hcs : (solve timedOut fuel (mkGame deck ds) scap mcap).2.cacheSound =
        stF.cacheSound := by
      simp [solve, hr]
    rw [hmoves]
    have h1 : (solveImpl timedOut fuel (mkGame deck ds) [] false 0
        ⟨⟨scap, []⟩, ⟨mcap, []⟩, 0, 0, true⟩).1 = some ms := by rw [hr]
    have h2 : (solveImpl timedOut fuel (mkGame deck ds) [] false 0
        ⟨⟨scap, []⟩, ⟨mcap, []⟩, 0, 0, true⟩).2.2.cacheSound = true := by
      rw [hr]
      rw [hcs] at hsound
      exact hsound
    have hInv := Inv_mkGame deck ds h52 hnodup hvalidc
    exact ⟨solveImpl_validSeq timedOut fuel _ _ _ _ _ _ hInv h1 h2,
      solveImpl_isWon timedOut fuel _ _ _ _ _ _ h1⟩

/-- A "deck" of 52 copies of the ace of spades: the input pipeline accepts
it (no duplicate check is performed on the input line). -/
def aceDeck : List Card := List.replicate 52 ⟨0, 0⟩

set_option maxRecDepth 1000000 in
/-- C1 counterexample: on the duplicate all-aces 52-card deck the solver
reports SOLVED, but replaying the returned moves violates `isValid` (the
unguarded ace moves of `_addAceMoves` push an ace onto an already
occupied foundation pile). -/
theorem C1_counterexample :
    aceDeck.length = 52 ∧
    (solve (fun _ => false) 100 (mkGame aceDeck 3) 1000000 100000).1.status =
      .SOLVED ∧
    validSeq (mkGame aceDeck 3)
      (solve (fun _ => false) 100 (mkGame aceDeck 3) 1000000 100000).1.moves =
      false := by
  decide

/-- A cooperative 52-card deck that the solver wins without backtracking. -/
def wdeck : List Card :=
  [⟨3, 10⟩, ⟨3, 11⟩, ⟨3, 12⟩, ⟨3, 7⟩, ⟨3, 8⟩, ⟨3, 9⟩, ⟨3, 4⟩, ⟨3, 5⟩,
   ⟨3, 6⟩, ⟨3, 1⟩, ⟨3, 2⟩, ⟨3, 3⟩, ⟨2, 11⟩, ⟨2, 12⟩, ⟨3, 0⟩, ⟨2, 8⟩,
   ⟨2, 9⟩, ⟨2, 10⟩, ⟨2, 5⟩, ⟨2, 6⟩, ⟨2, 7⟩, ⟨2, 2⟩, ⟨2, 3⟩, ⟨2, 4⟩,
   ⟨1, 8⟩, ⟨1, 9⟩, ⟨1, 2⟩, ⟨1, 10⟩, ⟨1, 3⟩, ⟨0, 10⟩, ⟨1, 11⟩, ⟨1, 4⟩,
   ⟨0, 11⟩, ⟨0, 6⟩, ⟨1, 12⟩, ⟨1, 5⟩, ⟨0, 12⟩, ⟨0, 7⟩, ⟨0, 3⟩, ⟨2, 0⟩,
   ⟨1, 6⟩, ⟨1, 0⟩, ⟨0, 8⟩, ⟨0, 4⟩, ⟨0, 1⟩, ⟨2, 1⟩, ⟨1, 7⟩, ⟨1, 1⟩,
   ⟨0, 9⟩, ⟨0, 5⟩, ⟨0, 2⟩, ⟨0, 0⟩]

set_option maxRecDepth 1000000 in
/-- Witness for C1 on a distinct-card deck the solver wins: all
hypotheses hold and the replay is valid and winning. -/
theorem C1_replay_witness :
    wdeck.length = 52 ∧ wdeck.Nodup ∧ (∀ c ∈ wdeck, c.valid) ∧
    (solve (fun _ => false) 100 (mkGame wdeck 3) 1000000 100000).1.status =
      .SOLVED ∧
    (solve (fun _ => false) 100 (mkGame wdeck 3) 1000000 100000).2.cacheSound =
      true ∧
    (validSeq (mkGame wdeck 3)
        (solve (fun _ => false) 100 (mkGame wdeck 3) 1000000 100000).1.moves =
        true ∧
     (replayFinal (mkGame wdeck 3)
        (solve (fun _ => false) 100 (mkGame wdeck 3)
          1000000 100000).1.moves).isWon = true) :=
  ⟨by decide, by decide, by decide, by decide, by decide,
   C1_replay wdeck 3 (fun _ => false) 100 1000000 100000 (by decide) (by decide)
     (by decide) (by decide) (by decide)⟩

end Solitaire
